import Mathlib

/-!
Verification development for the workflow execution engine of the Luffy.ai
repository (src/agents).  The Python sources are shallowly embedded:

* Python values that can appear in step parameters, `shared_context`,
  `raw_output` and `extracted_data` are modelled by the inductive `Value`
  (strings, ints, booleans, lists, dicts, and the `ExecutionStep` objects that
  `graph_builder.execute_step` stores under the `current_execution` key).
* Python dicts are modelled as insertion-ordered association lists; `alGet`,
  `alPut` and `alUpdate` mirror `d[k]`, `d[k] = v` and `d.update(...)` /
  `{**a, **b}`.
* `list(set(xs))` is modelled by `pyDedup`, which keeps the first occurrence
  of every element.  (CPython's `set` iteration order is unspecified; the
  claims under test only concern membership/dedup, not that order.)
* `str(x)` / `repr(x)` are modelled by `pyStr` / `pyRepr`.  String escaping
  inside `repr` of strings is not modelled (no claim depends on it).
* The LangGraph-driven engine (`graph_builder.ModernGraphBuilder`) is
  modelled as a step function on `NodeTag × WorkflowState`; node functions
  return partial updates (`StateUpdate`) that are merged into the state by
  the reducers of `plan_schema.py`, exactly as LangGraph applies the
  `Annotated` reducers of the `WorkflowState` TypedDict.
* External collaborators (the LangChain tools reached through
  `tool.invoke`, and the regex data extraction of `_extract_step_data`) are
  parameters of the engine (`EngineEnv`); a tool call that raises is an
  `Except.error` carrying `str(e)`.
-/

/-- Opening curly brace character, written via its code point. -/
def lb : Char := Char.ofNat 123

/-- Closing curly brace character, written via its code point. -/
def rb : Char := Char.ofNat 125

/-- The string consisting of two opening braces. -/
def lbb : String := String.mk [lb, lb]

/-- The string consisting of two closing braces. -/
def rbb : String := String.mk [rb, rb]

/-- Wraps a name in double curly braces, i.e. the template-placeholder
syntax of `graph_builder.py`. -/
def placeholder (name : String) : String := lbb ++ name ++ rbb

/-- Python tool enum of `plan_schema.ToolType`. -/
inductive ToolType where
  | gmail
  | calendar
  | drive
deriving DecidableEq, Repr

/-- The `.value` string of a `ToolType` member. -/
def ToolType.value : ToolType → String
  | .gmail => "gmail_tool"
  | .calendar => "calendar_tool"
  | .drive => "drive_tool"

/-- Python action enum of `plan_schema.ActionType`. -/
inductive ActionType where
  | send_email
  | read_emails
  | search_emails
  | get_threads
  | create_event
  | list_events
  | update_event
  | delete_event
  | get_event
  | upload_file
  | search_files
  | download_file
  | share_file
  | list_files
deriving DecidableEq, Repr

/-- The `.value` string of an `ActionType` member. -/
def ActionType.value : ActionType → String
  | .send_email => "send_email"
  | .read_emails => "read_emails"
  | .search_emails => "search_emails"
  | .get_threads => "get_threads"
  | .create_event => "create_event"
  | .list_events => "list_events"
  | .update_event => "update_event"
  | .delete_event => "delete_event"
  | .get_event => "get_event"
  | .upload_file => "upload_file"
  | .search_files => "search_files"
  | .download_file => "download_file"
  | .share_file => "share_file"
  | .list_files => "list_files"

mutual

/-- A Python value as it occurs in step parameters, shared context and
results: strings, ints, booleans, lists, dicts, and the `ExecutionStep`
dataclass objects that the engine stores inside `current_execution`. -/
inductive Value where
  | vStr (s : String)
  | vInt (n : Int)
  | vBool (b : Bool)
  | vList (xs : List Value)
  | vDict (xs : List (String × Value))
  | vStep (st : ExecutionStep)

/-- The `plan_schema.ExecutionStep` dataclass. -/
inductive ExecutionStep where
  | mk (step_index : Int) (tool : ToolType) (action : ActionType)
       (description : String) (parameters : List (String × Value))
       (dependencies : List Int) (expected_outputs : List String)

end

/-- Field accessor for `ExecutionStep.step_index`. -/
def ExecutionStep.step_index : ExecutionStep → Int
  | .mk i _ _ _ _ _ _ => i

/-- Field accessor for `ExecutionStep.tool`. -/
def ExecutionStep.tool : ExecutionStep → ToolType
  | .mk _ t _ _ _ _ _ => t

/-- Field accessor for `ExecutionStep.action`. -/
def ExecutionStep.action : ExecutionStep → ActionType
  | .mk _ _ a _ _ _ _ => a

/-- Field accessor for `ExecutionStep.description`. -/
def ExecutionStep.description : ExecutionStep → String
  | .mk _ _ _ d _ _ _ => d

/-- Field accessor for `ExecutionStep.parameters`. -/
def ExecutionStep.parameters : ExecutionStep → List (String × Value)
  | .mk _ _ _ _ p _ _ => p

/-- Field accessor for `ExecutionStep.dependencies`. -/
def ExecutionStep.dependencies : ExecutionStep → List Int
  | .mk _ _ _ _ _ d _ => d

/-- Field accessor for `ExecutionStep.expected_outputs`. -/
def ExecutionStep.expected_outputs : ExecutionStep → List String
  | .mk _ _ _ _ _ _ e => e

mutual

/-- Structural equality of Python values (the `==`/hash equality used by
`in`-tests and `set` membership). -/
def Value.beq : Value → Value → Bool
  | .vStr a, .vStr b => a == b
  | .vInt a, .vInt b => a == b
  | .vBool a, .vBool b => a == b
  | .vList a, .vList b => beqVL a b
  | .vDict a, .vDict b => beqVD a b
  | .vStep a, .vStep b => beqStep a b
  | _, _ => false

/-- Elementwise equality of value lists. -/
def beqVL : List Value → List Value → Bool
  | [], [] => true
  | x :: xs, y :: ys => x.beq y && beqVL xs ys
  | _, _ => false

/-- Entrywise equality of value dicts. -/
def beqVD : List (String × Value) → List (String × Value) → Bool
  | [], [] => true
  | (k, x) :: xs, (l, y) :: ys => k == l && x.beq y && beqVD xs ys
  | _, _ => false

/-- Fieldwise equality of `ExecutionStep` objects (dataclass `__eq__`). -/
def beqStep : ExecutionStep → ExecutionStep → Bool
  | .mk i t a d p dep e, .mk i2 t2 a2 d2 p2 dep2 e2 =>
      i == i2 && t == t2 && a == a2 && d == d2 && beqVD p p2 &&
      dep == dep2 && e == e2

end

/-- Python truthiness of a value (`bool(x)`): empty strings, 0, `False`,
empty lists and empty dicts are falsy; dataclass instances are truthy. -/
def pyTruthy : Value → Bool
  | .vStr s => !(s == "")
  | .vInt n => !(n == 0)
  | .vBool b => b
  | .vList xs => !xs.isEmpty
  | .vDict xs => !xs.isEmpty
  | .vStep _ => true

/-- Membership of a value in a list, with Python equality. -/
def vElem (v : Value) : List Value → Bool
  | [] => false
  | x :: xs => v.beq x || vElem v xs

/-- Accumulator worker for `pyDedup`. -/
def pyDedupAux : List Value → List Value → List Value
  | _, [] => []
  | seen, x :: xs =>
      if vElem x seen then pyDedupAux seen xs
      else x :: pyDedupAux (x :: seen) xs

/-- Model of `list(set(xs))`: removes duplicates, keeping the first
occurrence of every element.  CPython's `set` iteration order is
unspecified; this model fixes first-occurrence order. -/
def pyDedup (xs : List Value) : List Value := pyDedupAux [] xs

/-- Lookup in an insertion-ordered association list (`d[k]` / `d.get(k)`). -/
def alGet {α : Type} [DecidableEq α] {β : Type} : List (α × β) → α → Option β
  | [], _ => none
  | (k, v) :: xs, key => if k = key then some v else alGet xs key

/-- Model of `d[k] = v` on an insertion-ordered dict: replaces the value in
place when the key is present, otherwise appends the binding at the end. -/
def alPut {α : Type} [DecidableEq α] {β : Type} :
    List (α × β) → α → β → List (α × β)
  | [], key, v => [(key, v)]
  | (k, w) :: xs, key, v =>
      if k = key then (k, v) :: xs else (k, w) :: alPut xs key v

/-- Model of `old.update(new)` and of `{**old, **new}`. -/
def alUpdate {α : Type} [DecidableEq α] {β : Type}
    (old new : List (α × β)) : List (α × β) :=
  new.foldl (fun acc kv => alPut acc kv.1 kv.2) old

/-- Whether a key is present in an association list (`k in d`). -/
def alHas {α : Type} [DecidableEq α] {β : Type}
    (xs : List (α × β)) (key : α) : Bool :=
  (alGet xs key).isSome

/-- Python member name of a `ToolType` value. -/
def toolMemberName : ToolType → String
  | .gmail => "GMAIL"
  | .calendar => "CALENDAR"
  | .drive => "DRIVE"

/-- Python member name of an `ActionType` value. -/
def actionMemberName : ActionType → String
  | .send_email => "SEND_EMAIL"
  | .read_emails => "READ_EMAILS"
  | .search_emails => "SEARCH_EMAILS"
  | .get_threads => "GET_THREADS"
  | .create_event => "CREATE_EVENT"
  | .list_events => "LIST_EVENTS"
  | .update_event => "UPDATE_EVENT"
  | .delete_event => "DELETE_EVENT"
  | .get_event => "GET_EVENT"
  | .upload_file => "UPLOAD_FILE"
  | .search_files => "SEARCH_FILES"
  | .download_file => "DOWNLOAD_FILE"
  | .share_file => "SHARE_FILE"
  | .list_files => "LIST_FILES"

/-- Comma-separated body of `repr` of an int list. -/
def reprIntListBody : List Int → String
  | [] => ""
  | [x] => toString x
  | x :: xs => toString x ++ ", " ++ reprIntListBody xs

/-- Python `repr` of a list of ints. -/
def reprIntList (xs : List Int) : String := "[" ++ reprIntListBody xs ++ "]"

/-- Comma-separated body of `repr` of a string list. -/
def reprStrListBody : List String → String
  | [] => ""
  | [x] => "\x27" ++ x ++ "\x27"
  | x :: xs => "\x27" ++ x ++ "\x27, " ++ reprStrListBody xs

/-- Python `repr` of a list of strings. -/
def reprStrList (xs : List String) : String := "[" ++ reprStrListBody xs ++ "]"

mutual

/-- Python `repr` of a value.  Strings are quoted with an apostrophe;
escaping of special characters inside the string is not modelled. -/
def pyRepr : Value → String
  | .vStr s => "\x27" ++ s ++ "\x27"
  | .vInt n => toString n
  | .vBool b => if b then "True" else "False"
  | .vList xs => "[" ++ pyReprVL xs ++ "]"
  | .vDict xs => "\x7b" ++ pyReprVD xs ++ "\x7d"
  | .vStep st => pyReprStep st

/-- Comma-separated `repr` of list elements. -/
def pyReprVL : List Value → String
  | [] => ""
  | [x] => pyRepr x
  | x :: xs => pyRepr x ++ ", " ++ pyReprVL xs

/-- Comma-separated `repr` of dict entries. -/
def pyReprVD : List (String × Value) → String
  | [] => ""
  | [(k, v)] => "\x27" ++ k ++ "\x27: " ++ pyRepr v
  | (k, v) :: xs => "\x27" ++ k ++ "\x27: " ++ pyRepr v ++ ", " ++ pyReprVD xs

/-- Dataclass `repr` of an `ExecutionStep` (enum members print in the
`<Class.MEMBER: value>` form). -/
def pyReprStep : ExecutionStep → String
  | .mk i t a d p dep e =>
      "ExecutionStep(step_index=" ++ toString i ++
      ", tool=<ToolType." ++ toolMemberName t ++ ": \x27" ++ t.value ++
      "\x27>, action=<ActionType." ++ actionMemberName a ++ ": \x27" ++
      a.value ++ "\x27>, description=\x27" ++ d ++ "\x27, parameters=\x7b" ++
      pyReprVD p ++ "\x7d, dependencies=" ++ reprIntList dep ++
      ", expected_outputs=" ++ reprStrList e ++ ")"

end

/-- Python `str` of a value: identical to `repr` except on top-level
strings, which print unquoted. -/
def pyStr : Value → String
  | .vStr s => s
  | v => pyRepr v

/-- Whether `pat` occurs at the start of `s` (`s.startswith(pat)`). -/
def pyStartsWith (pat s : String) : Bool := pat.data.isPrefixOf s.data

/-- Whether `pat` occurs at the end of `s` (`s.endswith(pat)`). -/
def pyEndsWith (pat s : String) : Bool := pat.data.isSuffixOf s.data

/-- Whether `pat` occurs somewhere in the character list `cs`. -/
def subElem (pat : List Char) : List Char → Bool
  | [] => pat.isEmpty
  | c :: cs => pat.isPrefixOf (c :: cs) || subElem pat cs

/-- Python substring test `pat in s`. -/
def isSubstrS (pat s : String) : Bool := subElem pat.data s.data

/-- Fuel-indexed worker for `pyReplace`; every iteration consumes at
least one character, so fuel bounded by the text length suffices. -/
def replaceAux (pat rep : List Char) : Nat → List Char → List Char
  | 0, cs => cs
  | _ + 1, [] => []
  | fuel + 1, c :: cs =>
      if pat.isPrefixOf (c :: cs) && !pat.isEmpty then
        rep ++ replaceAux pat rep fuel ((c :: cs).drop pat.length)
      else c :: replaceAux pat rep fuel cs

/-- Python `s.replace(pat, rep)`: replaces every non-overlapping
occurrence left to right; the replacement text is not rescanned.  (The
call sites of this model never pass an empty pattern.) -/
def pyReplace (s pat rep : String) : String :=
  String.mk (replaceAux pat.data rep.data (s.data.length + 1) s.data)

/-- Python slice `s[2:-2]`. -/
def pySlice2m2 (s : String) : String :=
  let t := s.data.drop 2
  String.mk (t.take (t.length - 2))

/-- The `plan_schema.ExecutionPlan` dataclass. -/
structure ExecutionPlan where
  intent : String
  steps : List ExecutionStep
  estimated_duration : String
  requires_confirmation : Bool

/-- The `plan_schema.StepResult` dataclass. -/
structure StepResult where
  step_index : Int
  tool : ToolType
  action : ActionType
  status : String
  raw_output : List (String × Value)
  extracted_data : List (String × Value)
  error_message : Option String

/-- The `plan_schema.WorkflowState` TypedDict.  `plan`, `user_id` and
`created_at` are set once at creation and never written by any node, so the
update record below carries no fields for them. -/
structure WorkflowState where
  plan : ExecutionPlan
  user_id : String
  step_results : List (Int × StepResult)
  shared_context : List (String × Value)
  progress_messages : List String
  current_step : Int
  status : String
  created_at : String
  error_count : Int
  retry_count : Int

/-- The reducer `plan_schema.merge_step_results`.  Either argument may be
Python `None` (modelled as `Option.none`). -/
def merge_step_results (existing new : Option (List (Int × StepResult))) :
    List (Int × StepResult) :=
  let e := existing.getD []
  match new with
  | none => e
  | some n => alUpdate e n

/-- One iteration of the key loop of `plan_schema.merge_context`: lists are
concatenated and deduplicated, dicts are merged one level deep via
`{**old, **new}`, anything else overwrites. -/
def mergeCtxStep (m : List (String × Value)) (kv : String × Value) :
    List (String × Value) :=
  match alGet m kv.1 with
  | some old =>
      match old, kv.2 with
      | .vList a, .vList b => alPut m kv.1 (.vList (pyDedup (a ++ b)))
      | .vDict a, .vDict b => alPut m kv.1 (.vDict (alUpdate a b))
      | _, _ => alPut m kv.1 kv.2
  | none => m ++ [(kv.1, kv.2)]

/-- The reducer `plan_schema.merge_context`. -/
def merge_context (existing new : Option (List (String × Value))) :
    List (String × Value) :=
  let e := existing.getD []
  match new with
  | none => e
  | some n => n.foldl mergeCtxStep e

/-- The reducer `plan_schema.append_progress`. -/
def append_progress (existing new : Option (List String)) : List String :=
  let e := existing.getD []
  match new with
  | none => e
  | some n => e ++ n

/-- A partial state update as returned by a LangGraph node: only the keys
present in the returned dict are merged.  (The `messages` key some nodes
also return is not a field of the `WorkflowState` TypedDict and is not
modelled.) -/
structure StateUpdate where
  step_results : Option (List (Int × StepResult)) := none
  shared_context : Option (List (String × Value)) := none
  progress_messages : Option (List String) := none
  current_step : Option Int := none
  status : Option String := none
  error_count : Option Int := none
  retry_count : Option Int := none

/-- Application of a node's partial update to the state, using the
`Annotated` reducers of the TypedDict: `merge_step_results`,
`merge_context`, `append_progress` and `operator.add` for the counters;
plain fields are replaced when present. -/
def applyUpdate (s : WorkflowState) (u : StateUpdate) : WorkflowState :=
  { s with
    step_results := merge_step_results (some s.step_results) u.step_results
    shared_context := merge_context (some s.shared_context) u.shared_context
    progress_messages :=
      append_progress (some s.progress_messages) u.progress_messages
    current_step := u.current_step.getD s.current_step
    status := u.status.getD s.status
    error_count := s.error_count + (u.error_count.getD 0)
    retry_count := s.retry_count + (u.retry_count.getD 0) }

/-- The helper `plan_schema.update_workflow_status`. -/
def update_workflow_status (status : String) (message : Option String) :
    StateUpdate :=
  { status := some status
    progress_messages := message.map (fun m => [m]) }

/-- Coercion of a dict-valued `Value` to its entries. -/
def asDict : Value → Option (List (String × Value))
  | .vDict xs => some xs
  | _ => none

/-- The helper `plan_schema.update_step_completion`.  Both engine call
sites pass no `extracted_data` argument (Python default `None`). -/
def update_step_completion (step_result : StepResult)
    (extracted_data : Option (List (String × Value))) : StateUpdate :=
  let ed := extracted_data.getD []
  let base : StateUpdate :=
    { step_results := some [(step_result.step_index, step_result)]
      current_step := some (step_result.step_index + 1)
      progress_messages := some ["✅ Step " ++ toString step_result.step_index
        ++ " completed: " ++ step_result.tool.value] }
  if step_result.status == "completed" then
    let cu1 := match alGet ed "for_future_steps" with
      | some (.vDict d) => alUpdate [] d
      | _ => []
    let cu := match alGet ed "context_updates" with
      | some (.vDict d) => alUpdate cu1 d
      | _ => cu1
    if cu.isEmpty then base else { base with shared_context := some cu }
  else if step_result.status == "failed" then
    { base with
      error_count := some 1
      progress_messages := some ["❌ Step " ++ toString step_result.step_index
        ++ " failed: " ++ (step_result.error_message.getD "None")] }
  else base

/-- Python list indexing `l[i]` (negative indices count from the end);
`none` models an `IndexError`. -/
def pyGet {α : Type} (l : List α) (i : Int) : Option α :=
  if 0 ≤ i then l.get? i.toNat
  else if 0 ≤ (l.length : Int) + i then l.get? ((l.length : Int) + i).toNat
  else none

/-- Scanner for the regex `\x7b\x7b([^\x7d]+)\x7d\x7d` (`re.findall`): at
each position, match two opening braces, a nonempty run of non-closing-brace
characters, then two closing braces; on success continue after the match,
otherwise advance one character.  The fuel argument is bounded by the text
length, which suffices because every iteration consumes at least one
character. -/
def findTemplatesAux : Nat → List Char → List String
  | 0, _ => []
  | _ + 1, [] => []
  | fuel + 1, c :: cs =>
      if c = lb && cs.head? = some lb then
        let inner := (cs.drop 1).takeWhile (fun d => !(d = rb))
        let rest := (cs.drop 1).drop inner.length
        if !inner.isEmpty && rest.take 2 = [rb, rb] then
          String.mk inner :: findTemplatesAux fuel (rest.drop 2)
        else
          findTemplatesAux fuel cs
      else
        findTemplatesAux fuel cs

/-- All placeholder names occurring in a string, in order of occurrence
(the `re.findall(template_pattern, text)` of
`ModernGraphBuilder._resolve_partial_templates`). -/
def findTemplates (s : String) : List String :=
  findTemplatesAux (s.data.length + 1) s.data

/-- The scan of step results of `ModernGraphBuilder._lookup_variable`:
first result (in dict insertion order, regardless of status) whose
`extracted_data` has the key wins. -/
def findInResults : List (Int × StepResult) → String → Option Value
  | [], _ => none
  | (_, r) :: rest, nm =>
      match alGet r.extracted_data nm with
      | some v => some v
      | none => findInResults rest nm

/-- Whether a value is a Python list (`isinstance(x, list)`). -/
def isVList : Value → Bool
  | .vList _ => true
  | _ => false

/-- The heuristic scan of `ModernGraphBuilder._lookup_variable`: first
shared-context entry whose key contains `base` as a substring and whose
value is a list. -/
def findListCtx : List (String × Value) → String → Option Value
  | [], _ => none
  | (k, v) :: rest, base =>
      if isSubstrS base k && isVList v then some v
      else findListCtx rest base

/-- `ModernGraphBuilder._lookup_variable`. -/
def lookup_variable (var_name : String) (state : WorkflowState) :
    Option Value :=
  match alGet state.shared_context var_name with
  | some v => some v
  | none =>
    match findInResults state.step_results var_name with
    | some v => some v
    | none =>
      if pyEndsWith "_list" var_name || pyEndsWith "_emails" var_name then
        let base :=
          pyReplace (pyReplace var_name "_list" "") "_emails" ""
        findListCtx state.shared_context base
      else none

/-- `ModernGraphBuilder._resolve_partial_templates`: each found placeholder
whose lookup succeeds is replaced (all its occurrences) by the `str` form
of the value; unresolved placeholders are left verbatim. -/
def resolve_partial_templates (text : String) (state : WorkflowState) :
    String :=
  (findTemplates text).foldl
    (fun acc var =>
      match lookup_variable var state with
      | some v => pyReplace acc (placeholder var) (pyStr v)
      | none => acc)
    text

/-- The per-value branch of `ModernGraphBuilder._resolve_template_variables`
(the body of its `for key, value in parameters.items()` loop). -/
def resolveOneParam (v : Value) (state : WorkflowState) : Value :=
  match v with
  | .vStr sv =>
    if isSubstrS lbb sv && isSubstrS rbb sv then
      if sv == placeholder "user_id" then .vStr state.user_id
      else if pyStartsWith lbb sv && pyEndsWith rbb sv then
        let var_name := pySlice2m2 sv
        match lookup_variable var_name state with
        | some rv => rv
        | none => .vStr sv
      else
        let r1 := pyReplace sv (placeholder "user_id") state.user_id
        .vStr (resolve_partial_templates r1 state)
    else v
  | _ => v

/-- `ModernGraphBuilder._add_smart_defaults`. -/
def add_smart_defaults (params : List (String × Value)) :
    List (String × Value) :=
  let p := if alHas params "to" && !alHas params "subject" then
    alPut params "subject" (.vStr "Meeting Update") else params
  let p := if alHas p "to" && !alHas p "body" then
    alPut p "body" (.vStr "Please see the details below.") else p
  let p := if alHas p "title" && !alHas p "timezone" then
    alPut p "timezone" (.vStr "UTC") else p
  let p := if !alHas p "include_meet" && alHas p "attendees" then
    alPut p "include_meet" (.vBool true) else p
  p

/-- `ModernGraphBuilder._resolve_template_variables`. -/
def resolve_template_variables (parameters : List (String × Value))
    (state : WorkflowState) : List (String × Value) :=
  let resolved := parameters.foldl
    (fun acc kv => alPut acc kv.1 (resolveOneParam kv.2 state)) []
  let resolved := if alHas resolved "user_id" then resolved
    else alPut resolved "user_id" (.vStr state.user_id)
  add_smart_defaults resolved

/-- `ModernGraphBuilder._map_action_to_tool_name`.  The table covers every
`ActionType` member, so the Python `.get` default is unreachable. -/
def map_action_to_tool_name : ActionType → String
  | .send_email => "send_email_tool"
  | .search_emails => "search_emails_tool"
  | .read_emails => "read_recent_emails_tool"
  | .get_threads => "get_email_threads_tool"
  | .create_event => "create_calendar_event_tool"
  | .list_events => "list_calendar_events_tool"
  | .update_event => "update_calendar_event_tool"
  | .delete_event => "delete_calendar_event_tool"
  | .get_event => "get_calendar_event_tool"
  | .upload_file => "upload_file_to_drive_tool"
  | .search_files => "search_files_in_drive_tool"
  | .share_file => "share_drive_file_tool"
  | .download_file => "download_drive_file_tool"
  | .list_files => "list_recent_drive_files_tool"

/-- The injected external collaborators of the engine: the set of
registered LangChain tool names (`tools_by_name`), the tool calls
themselves (`tool.invoke`; an exception is `Except.error` with `str(e)`),
and the pure regex extraction `_extract_step_data` (its output dict). -/
structure EngineEnv where
  toolNames : List String
  toolInvoke : String → Value → Except String Value
  extractData : Value → ExecutionStep → List (String × Value)

/-- `ModernGraphBuilder._check_step_dependencies`: returns the
`satisfied` flag and the `missing` list (ints for absent results, the
`step_N_failed` marker strings for non-completed ones). -/
def check_step_dependencies (state : WorkflowState) (step : ExecutionStep) :
    Bool × List Value :=
  if step.dependencies.isEmpty then (true, [])
  else
    let missing := step.dependencies.foldl
      (fun acc dep =>
        match alGet state.step_results dep with
        | none => acc ++ [Value.vInt dep]
        | some r =>
            if r.status ≠ "completed" then
              acc ++ [Value.vStr ("step_" ++ toString dep ++ "_failed")]
            else acc)
      []
    (missing.isEmpty, missing)

/-- `ModernGraphBuilder._create_failed_step_result`.  A `none` step models
Python `None` (falsy), selecting the GMAIL/READ_EMAILS defaults. -/
def create_failed_step_result (current_step : Int)
    (step : Option ExecutionStep) (error : String) : StateUpdate :=
  let failed_result : StepResult :=
    { step_index := current_step
      tool := (step.map ExecutionStep.tool).getD .gmail
      action := (step.map ExecutionStep.action).getD .read_emails
      status := "failed"
      raw_output := [("error", .vStr error)]
      extracted_data := []
      error_message := some error }
  { update_step_completion failed_result none with
    current_step := some (current_step + 1)
    progress_messages :=
      some ["Step " ++ toString current_step ++ " failed: " ++ error] }

/-- `ModernGraphBuilder._prepare_tool_execution`: resolves the parameters,
maps the action to a tool name and builds the tool context; `none` models
the Python `None` returned when the tool is not registered.  (The
surrounding `try`/`except` has nothing to catch in the model: the resolver
is total.) -/
def prepare_tool_execution (env : EngineEnv) (state : WorkflowState)
    (step : ExecutionStep) (current_step : Int) :
    Option (List (String × Value)) :=
  let resolved := resolve_template_variables step.parameters state
  let tool_name := map_action_to_tool_name step.action
  if tool_name ∈ env.toolNames then
    some [("tool_name", .vStr tool_name),
          ("resolved_params", .vDict resolved),
          ("step_index", .vInt current_step),
          ("step_description", .vStr step.description)]
  else none

/-- `ModernGraphBuilder._process_tool_results`: advance the cursor and send
an *empty dict* as the new `current_execution` (which, through the
`merge_context` reducer's dict-merge, leaves the stored execution context
unchanged). -/
def process_tool_results (state : WorkflowState) (current_step : Int) :
    StateUpdate :=
  { current_step := some (current_step + 1)
    shared_context :=
      some (alPut state.shared_context "current_execution" (.vDict []))
    progress_messages :=
      some ["Step " ++ toString current_step ++ " completed successfully"] }

/-- The `execute_step` node of `ModernGraphBuilder` (the closure built by
`_create_step_executor_node`).  A non-dict value stored under
`current_execution` would make the Python code raise `AttributeError`
inside the node's `try` and fall into `_create_failed_step_result`; the
engine itself only ever stores dicts there, and the model routes that
unreachable corner to the same failure path with a fixed message. -/
def execute_step (env : EngineEnv) (state : WorkflowState) : StateUpdate :=
  let current_step := state.current_step
  let total_steps : Int := state.plan.steps.length
  if current_step > total_steps then
    update_workflow_status "completed" (some "All steps completed!")
  else
    match pyGet state.plan.steps (current_step - 1) with
    | none =>
        create_failed_step_result current_step none "list index out of range"
    | some step =>
      let skip := match alGet state.step_results current_step with
        | some r => r.status == "completed"
        | none => false
      if skip then { current_step := some (current_step + 1) }
      else
        match asDict ((alGet state.shared_context "current_execution").getD
            (.vDict [])) with
        | none =>
            create_failed_step_result current_step (some step)
              "attribute error"
        | some ce =>
          let ceIdxHit := match alGet ce "step_index" with
            | some (.vInt j) => j == current_step
            | _ => false
          if ceIdxHit &&
              pyTruthy ((alGet ce "tool_executed").getD (.vBool false)) then
            process_tool_results state current_step
          else
            let dep := check_step_dependencies state step
            if !dep.1 then
              create_failed_step_result current_step (some step)
                ("Dependencies not satisfied for step " ++ toString current_step
                  ++ ": " ++ pyStr (.vList dep.2))
            else
              match prepare_tool_execution env state step current_step with
              | none =>
                  create_failed_step_result current_step (some step)
                    "Failed to prepare tool execution"
              | some tool_context =>
                  { shared_context := some (alPut state.shared_context
                      "current_execution" (.vDict
                        [("step_index", .vInt current_step),
                         ("step", .vStep step),
                         ("tool_context", .vDict tool_context),
                         ("needs_tool_execution", .vBool true),
                         ("tool_executed", .vBool false)]))
                    progress_messages := some ["Executing step " ++
                      toString current_step ++ ": " ++ step.description] }

/-- `ModernGraphBuilder._update_shared_context`: the extracted entries
except `tool_output`, the deduplicated `discovered_contacts` union and the
`meeting_details` link.  A non-list `discovered_contacts` or non-dict
`meeting_details` would raise inside this helper's own `try`, which
returns the updates accumulated so far. -/
def update_shared_context (env : EngineEnv) (result : Value)
    (step : ExecutionStep) (state : WorkflowState) :
    List (String × Value) :=
  let extracted := env.extractData result step
  let cu := (extracted.filter (fun kv => kv.1 ≠ "tool_output")).foldl
    (fun acc kv => alPut acc kv.1 kv.2) []
  match alGet extracted "discovered_emails" with
  | some (.vList new_contacts) =>
      (match (alGet state.shared_context "discovered_contacts").getD
          (.vList []) with
       | .vList existing =>
          let cu := alPut cu "discovered_contacts"
            (.vList (pyDedup (existing ++ new_contacts)))
          (match alGet extracted "meeting_link" with
           | some link =>
              (match (alGet state.shared_context "meeting_details").getD
                  (.vDict []) with
               | .vDict md =>
                  alPut cu "meeting_details" (.vDict (alPut md "meet_link" link))
               | _ => cu)
           | none => cu)
       | _ => cu)
  | some _ => cu
  | none =>
      match alGet extracted "meeting_link" with
      | some link =>
          (match (alGet state.shared_context "meeting_details").getD
              (.vDict []) with
           | .vDict md =>
              alPut cu "meeting_details" (.vDict (alPut md "meet_link" link))
           | _ => cu)
      | none => cu

/-- The `except` path of the `execute_tools_directly` node: re-reads the
execution context from the state and records the failure. -/
def execute_tools_except (state : WorkflowState) (msg : String) :
    StateUpdate :=
  match asDict ((alGet state.shared_context "current_execution").getD
      (.vDict [])) with
  | some ce =>
      let stepOpt := match alGet ce "step" with
        | some (.vStep st) => some st
        | _ => none
      let idx : Int := match alGet ce "step_index" with
        | some (.vInt j) => j
        | _ => 0
      create_failed_step_result idx stepOpt msg
  | none => create_failed_step_result 0 none msg

/-- The `execute_tools_directly` node of `ModernGraphBuilder` (the closure
built by `_create_direct_tool_executor`).  The engine only ever stores a
well-typed execution context (a dict whose `step` is an `ExecutionStep`,
whose `step_index` is an int and whose `tool_context` carries a string
`tool_name` and the resolved params); for such states the model is exact.
Malformed contexts (only constructible by hand) are routed to the same
failure update the Python `except` produces, with the corresponding
exception text. -/
def execute_tools (env : EngineEnv) (state : WorkflowState) : StateUpdate :=
  match asDict ((alGet state.shared_context "current_execution").getD
      (.vDict [])) with
  | none => execute_tools_except state "attribute error"
  | some ce =>
    let tool_contextV := (alGet ce "tool_context").getD (.vDict [])
    match alGet ce "step" with
    | some (.vStep step) =>
      if !pyTruthy tool_contextV then
        let idx : Int := match alGet ce "step_index" with
          | some (.vInt j) => if j == 0 then 0 else j
          | _ => 0
        create_failed_step_result idx (some step)
          "No step or tool context found for tool execution"
      else
        (match asDict tool_contextV with
         | none => execute_tools_except state "attribute error"
         | some tc =>
           let idx : Int := match alGet ce "step_index" with
             | some (.vInt j) => j
             | _ => 0
           match alGet tc "tool_name" with
           | none => execute_tools_except state "\x27tool_name\x27"
           | some tnv =>
             match alGet tc "resolved_params" with
             | none => execute_tools_except state "\x27resolved_params\x27"
             | some rp =>
               match tnv with
               | .vStr tn =>
                 if tn ∈ env.toolNames then
                   match env.toolInvoke tn rp with
                   | .error e => execute_tools_except state e
                   | .ok result =>
                     let step_result : StepResult :=
                       { step_index := idx
                         tool := step.tool
                         action := step.action
                         status := "completed"
                         raw_output := [("result", result)]
                         extracted_data := env.extractData result step
                         error_message := none }
                     let context_updates :=
                       update_shared_context env result step state
                     { update_step_completion step_result none with
                       shared_context := some (alPut
                         (alUpdate state.shared_context context_updates)
                         "current_execution" (.vDict (alUpdate ce
                           [("tool_executed", .vBool true),
                            ("completed", .vBool true),
                            ("result", result)]))) }
                 else
                   create_failed_step_result idx (some step)
                     ("Tool not found: " ++ pyStr tnv)
               | _ =>
                   create_failed_step_result idx (some step)
                     ("Tool not found: " ++ pyStr tnv))
    | _ =>
        let idx : Int := match alGet ce "step_index" with
          | some (.vInt j) => if j == 0 then 0 else j
          | _ => 0
        create_failed_step_result idx none
          "No step or tool context found for tool execution"

/-- The `start_workflow` node of `ModernGraphBuilder`. -/
def start_workflow (state : WorkflowState) : StateUpdate :=
  update_workflow_status "executing"
    (some ("Starting workflow: " ++ state.plan.intent))

/-- The `finalize_workflow` node of `ModernGraphBuilder`. -/
def finalize_workflow (state : WorkflowState) : StateUpdate :=
  let completed := (state.step_results.filter
    (fun kv => kv.2.status == "completed")).length
  let failed := (state.step_results.filter
    (fun kv => kv.2.status == "failed")).length
  let final_status := if failed == 0 then "completed" else "partial_completion"
  { status := some final_status
    progress_messages := some ["Workflow completed! " ++ toString completed
      ++ " steps succeeded, " ++ toString failed ++ " failed"] }

/-- Routing outcomes of `_route_from_step_executor`. -/
inductive Route where
  | execTools
  | nextStep
  | finalizeRoute
  | errorRoute
deriving DecidableEq, Repr

/-- `ModernGraphBuilder._route_from_step_executor`.  Every branch after the
tool-execution check returns `next_step` in the source; a non-dict
`current_execution` raises inside the routing `try` and yields `error`. -/
def route_from_step_executor (state : WorkflowState) : Route :=
  if state.status == "failed" then .errorRoute
  else if state.current_step > (state.plan.steps.length : Int) then
    .finalizeRoute
  else
    match asDict ((alGet state.shared_context "current_execution").getD
        (.vDict [])) with
    | none => .errorRoute
    | some ce =>
      let needs := pyTruthy ((alGet ce "needs_tool_execution").getD
        (.vBool false))
      let texec := pyTruthy ((alGet ce "tool_executed").getD (.vBool false))
      if needs && !texec then .execTools else .nextStep

/-- Position in the compiled LangGraph: which node runs next. -/
inductive NodeTag where
  | start
  | execStep
  | execTools
  | finalize
  | done
deriving DecidableEq, Repr

/-- One transition of the compiled graph: run the node at the current
position, merge its update through the reducers, then follow the (static or
conditional) edge. -/
def engine_step (env : EngineEnv) :
    NodeTag × WorkflowState → NodeTag × WorkflowState
  | (.start, s) => (.execStep, applyUpdate s (start_workflow s))
  | (.execStep, s) =>
      let s2 := applyUpdate s (execute_step env s)
      match route_from_step_executor s2 with
      | .execTools => (.execTools, s2)
      | .nextStep => (.execStep, s2)
      | .finalizeRoute => (.finalize, s2)
      | .errorRoute => (.done, s2)
  | (.execTools, s) => (.execStep, applyUpdate s (execute_tools env s))
  | (.finalize, s) => (.done, applyUpdate s (finalize_workflow s))
  | (.done, s) => (.done, s)

/-- `n` transitions of the compiled graph. -/
def engine_run (env : EngineEnv) : Nat → NodeTag × WorkflowState →
    NodeTag × WorkflowState
  | 0, c => c
  | n + 1, c => engine_run env n (engine_step env c)

/-- Ascending sorted deduplication of an int list, used to render Python
set literals (CPython iterates small-int sets in ascending order). -/
def sortedDedupInt (xs : List Int) : List Int :=
  (xs.foldl (fun acc x => if x ∈ acc then acc else acc ++ [x]) []).mergeSort
    (fun a b => a ≤ b)

/-- Rendering of a Python set of ints, ascending. -/
def pySetStr (xs : List Int) : String :=
  "\x7b" ++ reprIntListBody (sortedDedupInt xs) ++ "\x7d"

/-- Python set equality of two int lists. -/
def setEqInt (xs ys : List Int) : Bool :=
  xs.all (fun x => decide (x ∈ ys)) && ys.all (fun y => decide (y ∈ xs))

mutual

/-- The recursive `check_circular` closure of
`graph_builder.validate_workflow_plan`:  the `path` is copied per branch,
the `visited` set is shared across the whole traversal (threaded through
and returned).  Fuel is an upper bound on the recursion: every level either
stops or adds the (plan-resident, unvisited-on-path) current index to the
path, and every dependency hop consumes fuel, so
`(steps + 1) * (maxdeps + 1) + 1` fuel (see `circularFuel`) is never
exhausted. -/
def check_circular (steps : List ExecutionStep) :
    Nat → Int → List Int → List Int → Bool × List Int
  | 0, _, _, visited => (false, visited)
  | fuel + 1, cur, path, visited =>
      if cur ∈ path then (true, visited)
      else if cur ∈ visited then (false, visited)
      else
        let visited := cur :: visited
        match steps.find? (fun s => s.step_index == cur) with
        | none => (false, visited)
        | some st => check_circular_deps steps fuel st.dependencies
            (cur :: path) visited

/-- The `for dep in current_step.dependencies` loop inside
`check_circular`: stop at the first cyclic branch, thread `visited`. -/
def check_circular_deps (steps : List ExecutionStep) :
    Nat → List Int → List Int → List Int → Bool × List Int
  | 0, _, _, visited => (false, visited)
  | _ + 1, [], _, visited => (false, visited)
  | fuel + 1, d :: ds, path, visited =>
      match check_circular steps fuel d path visited with
      | (true, v) => (true, v)
      | (false, v) => check_circular_deps steps fuel ds path v

end

/-- Fuel bound for `check_circular` (ample; see its docstring). -/
def circularFuel (steps : List ExecutionStep) : Nat :=
  (steps.length + 1) *
    ((steps.map (fun s => s.dependencies.length)).foldl max 0 + 1) + 1

/-- The expected contiguous index range `set(range(1, len(steps)+1))`. -/
def rangeIndices (n : Nat) : List Int :=
  (List.range n).map (fun i => Int.ofNat i + 1)

/-- The index-mismatch issues of `validate_workflow_plan`. -/
def indexIssues (plan : ExecutionPlan) : List String :=
  let expected : List Int := rangeIndices plan.steps.length
  let actual := plan.steps.map ExecutionStep.step_index
  if setEqInt expected actual then []
  else ["Step indices mismatch. Expected: " ++ pySetStr expected ++
        ", Got: " ++ pySetStr actual]

/-- The per-dependency issues of the `Enhanced dependency validation`
loop of `validate_workflow_plan`. -/
def depIssues (plan : ExecutionPlan) : List String :=
  let actual := plan.steps.map ExecutionStep.step_index
  plan.steps.flatMap (fun s => s.dependencies.flatMap (fun d =>
    (if s.step_index ≤ d then
      ["Step " ++ toString s.step_index ++ " depends on future step " ++
        toString d]
     else []) ++
    (if d ∈ actual then []
     else ["Step " ++ toString s.step_index ++
        " depends on non-existent step " ++ toString d])))

/-- The self-dependency and DFS cycle issues of `validate_workflow_plan`
(each step gets a fresh `visited` set). -/
def circularIssues (plan : ExecutionPlan) : List String :=
  plan.steps.flatMap (fun s =>
    (if s.step_index ∈ s.dependencies then
      ["Step " ++ toString s.step_index ++ " depends on itself"]
     else []) ++
    (if (check_circular plan.steps (circularFuel plan.steps) s.step_index
        [] []).1 then
      ["Circular dependency detected involving step " ++
        toString s.step_index]
     else []))

/-- The template-variable consistency issues of `validate_workflow_plan`. -/
def templateVariableIssues (plan : ExecutionPlan) : List String :=
  let all_expected := plan.steps.flatMap ExecutionStep.expected_outputs
  plan.steps.flatMap (fun s =>
    (s.parameters.map Prod.snd).flatMap (fun v =>
      match v with
      | .vStr sv =>
          if isSubstrS lbb sv && isSubstrS rbb sv then
            (findTemplates sv).flatMap (fun var =>
              if var ≠ "user_id" && var ∉ all_expected then
                ["Step " ++ toString s.step_index ++
                  " references unknown variable: " ++ var]
              else [])
          else []
      | _ => []))

/-- `graph_builder.validate_workflow_plan`. -/
def validate_workflow_plan (plan : ExecutionPlan) : List String :=
  if plan.steps.isEmpty then ["Plan has no steps"]
  else
    indexIssues plan ++ depIssues plan ++ circularIssues plan ++
      templateVariableIssues plan

/-- The validation gate of `llm_planner.StreamlinedLLMPlanner.create_plan`
(lines 84-90): the issues are computed, logged when non-empty, and the plan
is returned unchanged either way ("Continue anyway - basic validation
only").  No caller of the engine invokes `validate_workflow_plan`. -/
def planner_validation_gate (plan : ExecutionPlan) : ExecutionPlan := plan

/-- The dependency relation of a plan as traversed by `check_circular`:
`depRel p i j` holds when the first step with index `i` lists `j` among its
dependencies. -/
def depRel (plan : ExecutionPlan) (i j : Int) : Prop :=
  ∃ st, plan.steps.find? (fun s => s.step_index == i) = some st ∧
    j ∈ st.dependencies

/-- A plan contains a dependency cycle when some index transitively
depends on itself along `depRel`. -/
def HasCycle (plan : ExecutionPlan) : Prop :=
  ∃ i, Relation.TransGen (depRel plan) i i

/-- Well-formedness of a plan as the spec defines it: the step indices are
exactly the contiguous range `1..N` (as a set), and every dependency is a
strictly earlier existing index. -/
def PlanWellFormed (plan : ExecutionPlan) : Prop :=
  (∀ i : Int, i ∈ plan.steps.map ExecutionStep.step_index ↔
    i ∈ rangeIndices plan.steps.length) ∧
  ∀ s ∈ plan.steps, ∀ d ∈ s.dependencies,
    d ∈ plan.steps.map ExecutionStep.step_index ∧ d < s.step_index

/-- Serialized form of a string: length followed by the code points. -/
def encStr (s : String) : List Nat := s.length :: s.data.map Char.toNat

/-- Decoder for `encStr`. -/
def decStr : List Nat → Option (String × List Nat)
  | [] => none
  | n :: rest =>
      let cs := rest.take n
      if cs.length = n then
        some (String.mk (cs.map Char.ofNat), rest.drop n)
      else none

/-- Serialized form of an integer: sign tag and magnitude. -/
def encInt (n : Int) : List Nat :=
  if 0 ≤ n then [0, n.toNat] else [1, (-n).toNat]

/-- Decoder for `encInt`. -/
def decInt : List Nat → Option (Int × List Nat)
  | 0 :: m :: rest => some ((m : Int), rest)
  | 1 :: m :: rest => some (-(m : Int), rest)
  | _ => none

/-- Serialized form of a boolean. -/
def encBool (b : Bool) : List Nat := [if b then 1 else 0]

/-- Decoder for `encBool`. -/
def decBool : List Nat → Option (Bool × List Nat)
  | 0 :: rest => some (false, rest)
  | 1 :: rest => some (true, rest)
  | _ => none

/-- Serialized form of a `ToolType`. -/
def encTool : ToolType → List Nat
  | .gmail => [0]
  | .calendar => [1]
  | .drive => [2]

/-- Decoder for `encTool`. -/
def decTool : List Nat → Option (ToolType × List Nat)
  | 0 :: rest => some (.gmail, rest)
  | 1 :: rest => some (.calendar, rest)
  | 2 :: rest => some (.drive, rest)
  | _ => none

/-- Serialized form of an `ActionType`. -/
def encAction : ActionType → List Nat
  | .send_email => [0]
  | .read_emails => [1]
  | .search_emails => [2]
  | .get_threads => [3]
  | .create_event => [4]
  | .list_events => [5]
  | .update_event => [6]
  | .delete_event => [7]
  | .get_event => [8]
  | .upload_file => [9]
  | .search_files => [10]
  | .download_file => [11]
  | .share_file => [12]
  | .list_files => [13]

/-- Decoder for `encAction`. -/
def decAction : List Nat → Option (ActionType × List Nat)
  | 0 :: rest => some (.send_email, rest)
  | 1 :: rest => some (.read_emails, rest)
  | 2 :: rest => some (.search_emails, rest)
  | 3 :: rest => some (.get_threads, rest)
  | 4 :: rest => some (.create_event, rest)
  | 5 :: rest => some (.list_events, rest)
  | 6 :: rest => some (.update_event, rest)
  | 7 :: rest => some (.delete_event, rest)
  | 8 :: rest => some (.get_event, rest)
  | 9 :: rest => some (.upload_file, rest)
  | 10 :: rest => some (.search_files, rest)
  | 11 :: rest => some (.download_file, rest)
  | 12 :: rest => some (.share_file, rest)
  | 13 :: rest => some (.list_files, rest)
  | _ => none

/-- Serialized form of a list of integers: count followed by entries. -/
def encIntList (l : List Int) : List Nat :=
  l.length :: l.flatMap encInt

/-- Count-indexed decoder for int-list entries. -/
def decIntListN : Nat → List Nat → Option (List Int × List Nat)
  | 0, ts => some ([], ts)
  | n + 1, ts =>
      match decInt ts with
      | some (i, r) =>
          match decIntListN n r with
          | some (l, r2) => some (i :: l, r2)
          | none => none
      | none => none

/-- Decoder for `encIntList`. -/
def decIntList : List Nat → Option (List Int × List Nat)
  | [] => none
  | n :: rest => decIntListN n rest

/-- Serialized form of a list of strings: count followed by entries. -/
def encStrList (l : List String) : List Nat :=
  l.length :: l.flatMap encStr

/-- Count-indexed decoder for string-list entries. -/
def decStrListN : Nat → List Nat → Option (List String × List Nat)
  | 0, ts => some ([], ts)
  | n + 1, ts =>
      match decStr ts with
      | some (s, r) =>
          match decStrListN n r with
          | some (l, r2) => some (s :: l, r2)
          | none => none
      | none => none

/-- Decoder for `encStrList`. -/
def decStrList : List Nat → Option (List String × List Nat)
  | [] => none
  | n :: rest => decStrListN n rest

mutual

/-- Serialized form of a `Value` (tag followed by payload). -/
def encV : Value → List Nat
  | .vStr s => 0 :: encStr s
  | .vInt n => 1 :: encInt n
  | .vBool b => 2 :: encBool b
  | .vList xs => 3 :: encVL xs
  | .vDict xs => 4 :: encVD xs
  | .vStep st => 5 :: encStep st

/-- Serialized form of a value list (cons-coded). -/
def encVL : List Value → List Nat
  | [] => [0]
  | x :: xs => 1 :: (encV x ++ encVL xs)

/-- Serialized form of a value dict (cons-coded). -/
def encVD : List (String × Value) → List Nat
  | [] => [0]
  | (k, v) :: xs => 1 :: (encStr k ++ encV v ++ encVD xs)

/-- Serialized form of an `ExecutionStep`. -/
def encStep : ExecutionStep → List Nat
  | .mk i t a d ps deps outs =>
      encInt i ++ encTool t ++ encAction a ++ encStr d ++ encVD ps ++
        encIntList deps ++ encStrList outs

end

mutual

/-- Fuel-indexed decoder for `encV`.  Any fuel at least the length of the
encoding suffices (`decV_encV`). -/
def decV : Nat → List Nat → Option (Value × List Nat)
  | 0, _ => none
  | fuel + 1, ts =>
      match ts with
      | 0 :: rest =>
          (match decStr rest with
           | some (s, r) => some (.vStr s, r)
           | none => none)
      | 1 :: rest =>
          (match decInt rest with
           | some (n, r) => some (.vInt n, r)
           | none => none)
      | 2 :: rest =>
          (match decBool rest with
           | some (b, r) => some (.vBool b, r)
           | none => none)
      | 3 :: rest =>
          (match decVL fuel rest with
           | some (l, r) => some (.vList l, r)
           | none => none)
      | 4 :: rest =>
          (match decVD fuel rest with
           | some (d, r) => some (.vDict d, r)
           | none => none)
      | 5 :: rest =>
          (match decStepObj fuel rest with
           | some (st, r) => some (.vStep st, r)
           | none => none)
      | _ => none

/-- Fuel-indexed decoder for `encVL`. -/
def decVL : Nat → List Nat → Option (List Value × List Nat)
  | 0, _ => none
  | fuel + 1, ts =>
      match ts with
      | 0 :: rest => some ([], rest)
      | 1 :: rest =>
          (match decV fuel rest with
           | some (v, r) =>
              (match decVL fuel r with
               | some (l, r2) => some (v :: l, r2)
               | none => none)
           | none => none)
      | _ => none

/-- Fuel-indexed decoder for `encVD`. -/
def decVD : Nat → List Nat → Option (List (String × Value) × List Nat)
  | 0, _ => none
  | fuel + 1, ts =>
      match ts with
      | 0 :: rest => some ([], rest)
      | 1 :: rest =>
          (match decStr rest with
           | some (k, r0) =>
              (match decV fuel r0 with
               | some (v, r) =>
                  (match decVD fuel r with
                   | some (l, r2) => some ((k, v) :: l, r2)
                   | none => none)
               | none => none)
           | none => none)
      | _ => none

/-- Fuel-indexed decoder for `encStep`. -/
def decStepObj : Nat → List Nat → Option (ExecutionStep × List Nat)
  | 0, _ => none
  | fuel + 1, ts =>
      match decInt ts with
      | some (i, r1) =>
          (match decTool r1 with
           | some (t, r2) =>
              (match decAction r2 with
               | some (a, r3) =>
                  (match decStr r3 with
                   | some (d, r4) =>
                      (match decVD fuel r4 with
                       | some (ps, r5) =>
                          (match decIntList r5 with
                           | some (deps, r6) =>
                              (match decStrList r6 with
                               | some (outs, r7) =>
                                  some (.mk i t a d ps deps outs, r7)
                               | none => none)
                           | none => none)
                       | none => none)
                   | none => none)
               | none => none)
           | none => none)
      | none => none

end

/-- Serialized form of an optional string. -/
def encOptStr : Option String → List Nat
  | none => [0]
  | some s => 1 :: encStr s

/-- Decoder for `encOptStr`. -/
def decOptStr : List Nat → Option (Option String × List Nat)
  | 0 :: rest => some (none, rest)
  | 1 :: rest =>
      (match decStr rest with
       | some (s, r) => some (some s, r)
       | none => none)
  | _ => none

/-- Serialized form of a `StepResult`. -/
def encSR (r : StepResult) : List Nat :=
  encInt r.step_index ++ encTool r.tool ++ encAction r.action ++
    encStr r.status ++ encVD r.raw_output ++ encVD r.extracted_data ++
    encOptStr r.error_message

/-- Fuel-indexed decoder for `encSR`. -/
def decSR (fuel : Nat) (ts : List Nat) : Option (StepResult × List Nat) :=
  match decInt ts with
  | some (i, r1) =>
      (match decTool r1 with
       | some (t, r2) =>
          (match decAction r2 with
           | some (a, r3) =>
              (match decStr r3 with
               | some (st, r4) =>
                  (match decVD fuel r4 with
                   | some (ro, r5) =>
                      (match decVD fuel r5 with
                       | some (ed, r6) =>
                          (match decOptStr r6 with
                           | some (em, r7) =>
                              some ({ step_index := i, tool := t, action := a,
                                      status := st, raw_output := ro,
                                      extracted_data := ed,
                                      error_message := em }, r7)
                           | none => none)
                       | none => none)
                   | none => none)
               | none => none)
           | none => none)
       | none => none)
  | none => none

/-- Serialized body of the `step_results` dict. -/
def encSRBody : List (Int × StepResult) → List Nat
  | [] => []
  | (k, r) :: xs => encInt k ++ encSR r ++ encSRBody xs

/-- Serialized form of the `step_results` dict: count, then entries. -/
def encSRMap (l : List (Int × StepResult)) : List Nat :=
  l.length :: encSRBody l

/-- Count-indexed decoder for `encSRBody`. -/
def decSRMapN (fuel : Nat) : Nat → List Nat →
    Option (List (Int × StepResult) × List Nat)
  | 0, ts => some ([], ts)
  | n + 1, ts =>
      match decInt ts with
      | some (k, r0) =>
          (match decSR fuel r0 with
           | some (r, r1) =>
              (match decSRMapN fuel n r1 with
               | some (l, r2) => some ((k, r) :: l, r2)
               | none => none)
           | none => none)
      | none => none

/-- Serialized body of a string-to-value dict. -/
def encCtxBody : List (String × Value) → List Nat
  | [] => []
  | (k, v) :: xs => encStr k ++ encV v ++ encCtxBody xs

/-- Serialized form of a string-to-value dict: count, then entries. -/
def encCtx (l : List (String × Value)) : List Nat :=
  l.length :: encCtxBody l

/-- Count-indexed decoder for `encCtxBody`. -/
def decCtxN (fuel : Nat) : Nat → List Nat →
    Option (List (String × Value) × List Nat)
  | 0, ts => some ([], ts)
  | n + 1, ts =>
      match decStr ts with
      | some (k, r0) =>
          (match decV fuel r0 with
           | some (v, r1) =>
              (match decCtxN fuel n r1 with
               | some (l, r2) => some ((k, v) :: l, r2)
               | none => none)
           | none => none)
      | none => none

/-- Serialized body of the plan's step list. -/
def encStepsBody : List ExecutionStep → List Nat
  | [] => []
  | s :: xs => encStep s ++ encStepsBody xs

/-- Count-indexed decoder for `encStepsBody`. -/
def decStepsN (fuel : Nat) : Nat → List Nat →
    Option (List ExecutionStep × List Nat)
  | 0, ts => some ([], ts)
  | n + 1, ts =>
      match decStepObj fuel ts with
      | some (s, r0) =>
          (match decStepsN fuel n r0 with
           | some (l, r1) => some (s :: l, r1)
           | none => none)
      | none => none

/-- Serialized form of an `ExecutionPlan`. -/
def encPlan (p : ExecutionPlan) : List Nat :=
  encStr p.intent ++ (p.steps.length :: encStepsBody p.steps) ++
    encStr p.estimated_duration ++ encBool p.requires_confirmation

/-- Fuel-indexed decoder for `encPlan`. -/
def decPlan (fuel : Nat) (ts : List Nat) :
    Option (ExecutionPlan × List Nat) :=
  match decStr ts with
  | some (intent, r0) =>
      (match r0 with
       | n :: r1 =>
          (match decStepsN fuel n r1 with
           | some (steps, r2) =>
              (match decStr r2 with
               | some (dur, r3) =>
                  (match decBool r3 with
                   | some (conf, r4) =>
                      some ({ intent := intent, steps := steps,
                              estimated_duration := dur,
                              requires_confirmation := conf }, r4)
                   | none => none)
               | none => none)
           | none => none)
       | [] => none)
  | none => none

/-- The byte stream written for a full `WorkflowState` checkpoint
(`Modelled from the spec:` the serializer itself lives in the external
LangGraph checkpoint library behind `StateManager.get_checkpointer`; the
spec's requirement is a byte-stream serialization of the state with
round-trip equality, and the stream is modelled as a list of naturals). -/
def serialize_state (s : WorkflowState) : List Nat :=
  encPlan s.plan ++ encStr s.user_id ++ encSRMap s.step_results ++
    encCtx s.shared_context ++ encStrList s.progress_messages ++
    encInt s.current_step ++ encStr s.status ++ encStr s.created_at ++
    encInt s.error_count ++ encInt s.retry_count

/-- Decoder for `serialize_state` given fuel and the stream; returns the
state and the unread remainder. -/
def decState (fuel : Nat) (ts : List Nat) :
    Option (WorkflowState × List Nat) :=
  match decPlan fuel ts with
  | some (plan, r0) =>
      (match decStr r0 with
       | some (uid, r1) =>
          (match r1 with
           | n :: r1b =>
              (match decSRMapN fuel n r1b with
               | some (srs, r2) =>
                  (match r2 with
                   | m :: r2b =>
                      (match decCtxN fuel m r2b with
                       | some (ctx, r3) =>
                          (match decStrList r3 with
                           | some (msgs, r4) =>
                              (match decInt r4 with
                               | some (cur, r5) =>
                                  (match decStr r5 with
                                   | some (stat, r6) =>
                                      (match decStr r6 with
                                       | some (created, r7) =>
                                          (match decInt r7 with
                                           | some (ec, r8) =>
                                              (match decInt r8 with
                                               | some (rc, r9) =>
                                                  some (⟨plan, uid, srs,
                                                    ctx, msgs, cur, stat,
                                                    created, ec, rc⟩, r9)
                                               | none => none)
                                           | none => none)
                                       | none => none)
                                   | none => none)
                               | none => none)
                           | none => none)
                       | none => none)
                   | [] => none)
               | none => none)
           | [] => none)
       | none => none)
  | none => none

/-- Reading a checkpoint back: decode with ample fuel and require the
whole stream to be consumed. -/
def deserialize_state (ts : List Nat) : Option WorkflowState :=
  match decState ts.length ts with
  | some (s, []) => some s
  | _ => none

/-- Per-key semantics of the `merge_context` reducer, as the amended claim
states it: list-valued keys on both sides concatenate and deduplicate,
dict-valued keys on both sides merge one level deep (`{**old, **new}`),
any other key present in the update overwrites, and keys absent from the
update keep their existing value. -/
def ctxMergeSpec : Option Value → Option Value → Option Value
  | some (.vList a), some (.vList b) => some (.vList (pyDedup (a ++ b)))
  | some (.vDict a), some (.vDict b) => some (.vDict (alUpdate a b))
  | _, some b => some b
  | oa, none => oa

/-- A one-step plan used by concrete evaluations. -/
def demoStep1 : ExecutionStep :=
  .mk 1 .gmail .read_emails "check inbox" [] [] []

/-- A follow-up step depending on the first. -/
def demoStep2 : ExecutionStep :=
  .mk 2 .gmail .send_email "send summary" [("to", .vStr "a@x.com")] [1] []

/-- A small well-formed two-step plan. -/
def demoPlan : ExecutionPlan :=
  { intent := "demo", steps := [demoStep1, demoStep2],
    estimated_duration := "1m", requires_confirmation := false }

/-- An engine environment whose tools always succeed. -/
def demoEnv : EngineEnv :=
  { toolNames := ["read_recent_emails_tool", "send_email_tool"]
    toolInvoke := fun tn _ => .ok (.vStr ("done " ++ tn))
    extractData := fun r _ => [("tool_output", r)] }

/-- The initial `WorkflowState` for `demoPlan` (the shape produced by
`create_initial_state`, with fixed timestamps). -/
def demoState0 : WorkflowState :=
  { plan := demoPlan, user_id := "u1"
    step_results := []
    shared_context := [("user_id", .vStr "u1")]
    progress_messages := [], current_step := 1, status := "executing"
    created_at := "t0", error_count := 0, retry_count := 0 }

/-- A failed result for step 1, as recorded by an earlier engine pass. -/
def c2FailedResult : StepResult :=
  { step_index := 1, tool := .gmail, action := .read_emails
    status := "failed", raw_output := [("error", .vStr "boom")]
    extracted_data := [], error_message := some "boom" }

/-- A one-step plan for the re-entry counterexample. -/
def c2Plan : ExecutionPlan :=
  { intent := "retry", steps := [demoStep1],
    estimated_duration := "1m", requires_confirmation := false }

/-- A state that already holds a terminal (`failed`) result for step 1 with
the cursor back at step 1, as after a checkpoint resume. -/
def c2State : WorkflowState :=
  { plan := c2Plan, user_id := "u1"
    step_results := [(1, c2FailedResult)]
    shared_context := []
    progress_messages := [], current_step := 1, status := "executing"
    created_at := "t0", error_count := 1, retry_count := 0 }

/-- A completed result for step 1 (used by witnesses). -/
def completedResult1 : StepResult :=
  { step_index := 1, tool := .gmail, action := .read_emails
    status := "completed", raw_output := [("result", .vStr "ok")]
    extracted_data := [], error_message := none }

/-- A state holding a completed result for step 1 with the cursor at 1. -/
def c2DoneState : WorkflowState :=
  { c2State with step_results := [(1, completedResult1)], error_count := 0 }

/-- The multi-placeholder parameter string of the template-resolution
counterexample. -/
def c4Text : String := placeholder "a" ++ " x " ++ placeholder "b"

/-- A state giving concrete values to the names `a` and `b`. -/
def c4State : WorkflowState :=
  { demoState0 with shared_context := [("a", .vStr "1"), ("b", .vStr "2")] }

/-- A state with a three-element contact list in shared context. -/
def c4ListState : WorkflowState :=
  { demoState0 with shared_context :=
      [("contact_list", .vList [.vStr "a@x.com", .vStr "b@x.com",
        .vStr "c@x.com"])] }

/-- Step result carrying `x` from step 2. -/
def c5Result2 : StepResult :=
  { step_index := 2, tool := .gmail, action := .read_emails
    status := "completed", raw_output := [], extracted_data :=
      [("x", .vStr "b")], error_message := none }

/-- Step result carrying `x` from step 1. -/
def c5Result1 : StepResult :=
  { step_index := 1, tool := .gmail, action := .read_emails
    status := "completed", raw_output := [], extracted_data :=
      [("x", .vStr "a")], error_message := none }

/-- A state whose `step_results` dict was populated with step 2's entry
before step 1's (dict iteration follows insertion order, not index
order). -/
def c5State : WorkflowState :=
  { demoState0 with
    shared_context := []
    step_results := [(2, c5Result2), (1, c5Result1)] }

/-- A failed step result that nevertheless carries extracted data. -/
def c5FailedResult : StepResult :=
  { step_index := 1, tool := .gmail, action := .read_emails
    status := "failed", raw_output := [], extracted_data :=
      [("x", .vStr "f")], error_message := some "boom" }

/-- A state whose only step result is failed but carries the name `x`. -/
def c5FailedState : WorkflowState :=
  { demoState0 with
    shared_context := []
    step_results := [(1, c5FailedResult)] }

/-- A plan whose second step depends on an absent result (used by the
dependency-gate witness). -/
def c6Plan : ExecutionPlan :=
  { intent := "dep demo", steps := [demoStep1, demoStep2],
    estimated_duration := "1m", requires_confirmation := false }

/-- A state at step 2 of `c6Plan` with no result for step 1. -/
def c6State : WorkflowState :=
  { plan := c6Plan, user_id := "u1"
    step_results := []
    shared_context := []
    progress_messages := [], current_step := 2, status := "executing"
    created_at := "t0", error_count := 0, retry_count := 0 }

/-- The execution context the engine stores before running step 1's tool. -/
def c7ToolCtx : List (String × Value) :=
  [("tool_name", .vStr "read_recent_emails_tool"),
   ("resolved_params", .vDict [("user_id", .vStr "u1")]),
   ("step_index", .vInt 1),
   ("step_description", .vStr "check inbox")]

/-- A state about to execute step 1's tool call. -/
def c7State : WorkflowState :=
  { plan := c2Plan, user_id := "u1"
    step_results := []
    shared_context := [("current_execution", .vDict
      [("step_index", .vInt 1), ("step", .vStep demoStep1),
       ("tool_context", .vDict c7ToolCtx),
       ("needs_tool_execution", .vBool true),
       ("tool_executed", .vBool false)])]
    progress_messages := [], current_step := 1, status := "executing"
    created_at := "t0", error_count := 0, retry_count := 0 }

/-- An engine environment whose tool calls raise. -/
def c7Env : EngineEnv :=
  { toolNames := ["read_recent_emails_tool", "send_email_tool"]
    toolInvoke := fun _ _ => .error "API quota exceeded"
    extractData := fun r _ => [("tool_output", r)] }

/-- The cyclic plan of the validation counterexample: step 2 depends on
step 3 and step 3 depends on step 2. -/
def c8Plan : ExecutionPlan :=
  { intent := "cyclic"
    steps := [demoStep1,
      .mk 2 .calendar .create_event "meet" [] [3] [],
      .mk 3 .gmail .send_email "mail" [] [2] []]
    estimated_duration := "1m", requires_confirmation := false }

/-- The initial state the orchestrator would build for `c8Plan`. -/
def c8State0 : WorkflowState :=
  { plan := c8Plan, user_id := "u1"
    step_results := []
    shared_context := [("user_id", .vStr "u1")]
    progress_messages := [], current_step := 1, status := "executing"
    created_at := "t0", error_count := 0, retry_count := 0 }

/-- A terminal-shaped state with one completed and one failed result. -/
def c9State : WorkflowState :=
  { plan := demoPlan, user_id := "u1"
    step_results := [(1, completedResult1), (2, c2FailedResult)]
    shared_context := []
    progress_messages := [], current_step := 3, status := "executing"
    created_at := "t0", error_count := 1, retry_count := 0 }

/-- The mid-run state of the checkpoint witness: `demoPlan` after three
engine transitions (start, step preparation, tool execution). -/
def c1Mid : WorkflowState := (engine_run demoEnv 3 (.start, demoState0)).2

/-- Per-dependency contribution to the `missing` list of
`check_step_dependencies` (proof helper). -/
def depMissing (s : WorkflowState) (dep : Int) : List Value :=
  match alGet s.step_results dep with
  | none => [Value.vInt dep]
  | some r =>
      if r.status ≠ "completed" then
        [Value.vStr ("step_" ++ toString dep ++ "_failed")]
      else []

/-- The outcome normalization of `execution_nodes.GmailNode.execute` (the
same contract as its Calendar/Drive siblings): the external call either
returns a result dict or raises; an exception becomes a failed
`StepResult` carrying `str(e)`, and a returned dict is normalized via its
`success` flag.  (A non-string `error` entry is not modelled; the tools
always report strings.) -/
def gmail_node_execute (step_index : Int) (tool : ToolType)
    (action : ActionType) (call : Except String (List (String × Value))) :
    StepResult :=
  match call with
  | .error e =>
      { step_index := step_index, tool := tool, action := action
        status := "failed", raw_output := [], extracted_data := []
        error_message := some e }
  | .ok result =>
      let success := pyTruthy ((alGet result "success").getD (.vBool false))
      { step_index := step_index, tool := tool, action := action
        status := if success then "completed" else "failed"
        raw_output := result, extracted_data := []
        error_message :=
          if success then none
          else match alGet result "error" with
               | some (.vStr e2) => some e2
               | _ => none }

theorem decStr_encStr (s : String) (rest : List Nat) :
    decStr (encStr s ++ rest) = some (s, rest) := by
  have hlen : s.length = (s.data.map Char.toNat).length := by
    rw [List.length_map]; rfl
  simp only [encStr, List.cons_append, decStr, hlen, List.take_left,
    List.length_map, List.drop_left]
  simp [List.map_map, Function.comp_def, Char.ofNat_toNat]

theorem decInt_encInt (n : Int) (rest : List Nat) :
    decInt (encInt n ++ rest) = some (n, rest) := by
  by_cases h : 0 ≤ n
  · simp [encInt, h, decInt, Int.toNat_of_nonneg h]
  · have h2 : 0 ≤ -n := by omega
    simp [encInt, h, decInt, Int.toNat_of_nonneg h2]

theorem decBool_encBool (b : Bool) (rest : List Nat) :
    decBool (encBool b ++ rest) = some (b, rest) := by
  cases b <;> simp [encBool, decBool]

theorem decTool_encTool (t : ToolType) (rest : List Nat) :
    decTool (encTool t ++ rest) = some (t, rest) := by
  cases t <;> simp [encTool, decTool]

theorem decAction_encAction (a : ActionType) (rest : List Nat) :
    decAction (encAction a ++ rest) = some (a, rest) := by
  cases a <;> rfl

theorem decOptStr_encOptStr (o : Option String) (rest : List Nat) :
    decOptStr (encOptStr o ++ rest) = some (o, rest) := by
  cases o with
  | none => rfl
  | some s => simp [encOptStr, decOptStr, decStr_encStr]

theorem decIntListN_enc (l : List Int) (rest : List Nat) :
    decIntListN l.length (l.flatMap encInt ++ rest) = some (l, rest) := by
  induction l with
  | nil => rfl
  | cons i l ih =>
      simp [decIntListN, List.append_assoc, decInt_encInt, ih]

theorem decIntList_enc (l : List Int) (rest : List Nat) :
    decIntList (encIntList l ++ rest) = some (l, rest) := by
  simp [encIntList, decIntList, decIntListN_enc]

theorem decStrListN_enc (l : List String) (rest : List Nat) :
    decStrListN l.length (l.flatMap encStr ++ rest) = some (l, rest) := by
  induction l with
  | nil => rfl
  | cons s l ih =>
      simp [decStrListN, List.append_assoc, decStr_encStr, ih]

theorem decStrList_enc (l : List String) (rest : List Nat) :
    decStrList (encStrList l ++ rest) = some (l, rest) := by
  simp [encStrList, decStrList, decStrListN_enc]

theorem encInt_length (n : Int) : (encInt n).length = 2 := by
  unfold encInt; split <;> rfl

theorem encStr_length_pos (s : String) : 1 ≤ (encStr s).length := by
  simp [encStr]

theorem encV_length_pos (v : Value) : 1 ≤ (encV v).length := by
  cases v <;> simp [encV]

theorem encVL_length_pos (l : List Value) : 1 ≤ (encVL l).length := by
  cases l <;> simp [encVL]

theorem encVD_length_pos (l : List (String × Value)) :
    1 ≤ (encVD l).length := by
  cases l with
  | nil => simp [encVD]
  | cons kv xs => cases kv; simp [encVD]

theorem encTool_length (t : ToolType) : (encTool t).length = 1 := by
  cases t <;> rfl

theorem encAction_length (a : ActionType) : (encAction a).length = 1 := by
  cases a <;> rfl

theorem encIntList_length_pos (l : List Int) : 1 ≤ (encIntList l).length := by
  simp [encIntList]

theorem encStrList_length_pos (l : List String) :
    1 ≤ (encStrList l).length := by
  simp [encStrList]

theorem encStep_length_ge (st : ExecutionStep) :
    7 ≤ (encStep st).length := by
  cases st with
  | mk i t a d ps deps outs =>
      have h1 := encVD_length_pos ps
      have h2 := encStr_length_pos d
      simp [encStep, encInt_length, encTool_length, encAction_length,
        encIntList, encStrList]
      omega

theorem dec_enc_fuel : ∀ fuel : Nat,
    (∀ v rest, (encV v).length ≤ fuel →
      decV fuel (encV v ++ rest) = some (v, rest)) ∧
    (∀ l rest, (encVL l).length ≤ fuel →
      decVL fuel (encVL l ++ rest) = some (l, rest)) ∧
    (∀ d rest, (encVD d).length ≤ fuel →
      decVD fuel (encVD d ++ rest) = some (d, rest)) ∧
    (∀ st rest, (encStep st).length ≤ fuel →
      decStepObj fuel (encStep st ++ rest) = some (st, rest)) := by
  intro fuel
  induction fuel with
  | zero =>
      refine ⟨?_, ?_, ?_, ?_⟩
      · intro v rest h; have := encV_length_pos v; omega
      · intro l rest h; have := encVL_length_pos l; omega
      · intro d rest h; have := encVD_length_pos d; omega
      · intro st rest h; have := encStep_length_ge st; omega
  | succ fuel ih =>
      obtain ⟨ihV, ihL, ihD, ihS⟩ := ih
      refine ⟨?_, ?_, ?_, ?_⟩
      · intro v rest h
        cases v with
        | vStr s => simp [encV, decV, decStr_encStr]
        | vInt n => simp [encV, decV, decInt_encInt]
        | vBool b => simp [encV, decV, decBool_encBool]
        | vList xs =>
            have hb : (encVL xs).length ≤ fuel := by
              simp [encV] at h; omega
            simp [encV, decV, ihL xs rest hb]
        | vDict xs =>
            have hb : (encVD xs).length ≤ fuel := by
              simp [encV] at h; omega
            simp [encV, decV, ihD xs rest hb]
        | vStep st =>
            have hb : (encStep st).length ≤ fuel := by
              simp [encV] at h; omega
            simp [encV, decV, ihS st rest hb]
      · intro l rest h
        cases l with
        | nil => simp [encVL, decVL]
        | cons v xs =>
            have hv : (encV v).length ≤ fuel := by
              have := encVL_length_pos xs; simp [encVL] at h; omega
            have hxs : (encVL xs).length ≤ fuel := by
              have := encV_length_pos v; simp [encVL] at h; omega
            simp [encVL, decVL, List.append_assoc, ihV v _ hv,
              ihL xs rest hxs]
      · intro d rest h
        cases d with
        | nil => simp [encVD, decVD]
        | cons kv xs =>
            obtain ⟨k, v⟩ := kv
            have hv : (encV v).length ≤ fuel := by
              have := encVD_length_pos xs
              have := encStr_length_pos k
              simp [encVD] at h; omega
            have hxs : (encVD xs).length ≤ fuel := by
              have := encV_length_pos v
              have := encStr_length_pos k
              simp [encVD] at h; omega
            simp [encVD, decVD, List.append_assoc, decStr_encStr,
              ihV v _ hv, ihD xs rest hxs]
      · intro st rest h
        cases st with
        | mk i t a d ps deps outs =>
            have hps : (encVD ps).length ≤ fuel := by
              have := encStr_length_pos d
              have := encIntList_length_pos deps
              have := encStrList_length_pos outs
              simp [encStep, encInt_length, encTool_length,
                encAction_length] at h
              omega
            simp [encStep, decStepObj, List.append_assoc, decInt_encInt,
              decTool_encTool, decAction_encAction, decStr_encStr,
              ihD ps _ hps, decIntList_enc, decStrList_enc]

theorem encOptStr_length_pos (o : Option String) :
    1 ≤ (encOptStr o).length := by
  cases o <;> simp [encOptStr]

theorem decSR_enc (fuel : Nat) (r : StepResult) (rest : List Nat)
    (hf : (encSR r).length ≤ fuel) :
    decSR fuel (encSR r ++ rest) = some (r, rest) := by
  have hro : (encVD r.raw_output).length ≤ fuel := by
    have := encVD_length_pos r.extracted_data
    have := encStr_length_pos r.status
    have := encOptStr_length_pos r.error_message
    simp [encSR, encInt_length, encTool_length, encAction_length] at hf
    omega
  have hed : (encVD r.extracted_data).length ≤ fuel := by
    have := encVD_length_pos r.raw_output
    have := encStr_length_pos r.status
    have := encOptStr_length_pos r.error_message
    simp [encSR, encInt_length, encTool_length, encAction_length] at hf
    omega
  simp [encSR, decSR, List.append_assoc, decInt_encInt, decTool_encTool,
    decAction_encAction, decStr_encStr, (dec_enc_fuel fuel).2.2.1 _ _ hro,
    (dec_enc_fuel fuel).2.2.1 _ _ hed, decOptStr_encOptStr]

theorem encSR_length_pos (r : StepResult) : 1 ≤ (encSR r).length := by
  have := encInt_length r.step_index
  simp [encSR]
  omega

theorem decSRMapN_enc (fuel : Nat) (l : List (Int × StepResult))
    (rest : List Nat) (hb : (encSRBody l).length ≤ fuel) :
    decSRMapN fuel l.length (encSRBody l ++ rest) = some (l, rest) := by
  induction l with
  | nil => rfl
  | cons kv xs ih =>
      obtain ⟨k, r⟩ := kv
      have hr : (encSR r).length ≤ fuel := by
        simp [encSRBody, encInt_length] at hb; omega
      have hxs : (encSRBody xs).length ≤ fuel := by
        simp [encSRBody, encInt_length] at hb
        have := encSR_length_pos r
        omega
      simp [encSRBody, decSRMapN, List.append_assoc, decInt_encInt,
        decSR_enc fuel r _ hr, ih hxs]

theorem decCtxN_enc (fuel : Nat) (l : List (String × Value))
    (rest : List Nat) (hb : (encCtxBody l).length ≤ fuel) :
    decCtxN fuel l.length (encCtxBody l ++ rest) = some (l, rest) := by
  induction l with
  | nil => rfl
  | cons kv xs ih =>
      obtain ⟨k, v⟩ := kv
      have hv : (encV v).length ≤ fuel := by
        have := encStr_length_pos k
        simp [encCtxBody] at hb; omega
      have hxs : (encCtxBody xs).length ≤ fuel := by
        have := encStr_length_pos k
        have := encV_length_pos v
        simp [encCtxBody] at hb; omega
      simp [encCtxBody, decCtxN, List.append_assoc, decStr_encStr,
        (dec_enc_fuel fuel).1 _ _ hv, ih hxs]

theorem decStepsN_enc (fuel : Nat) (l : List ExecutionStep)
    (rest : List Nat) (hb : (encStepsBody l).length ≤ fuel) :
    decStepsN fuel l.length (encStepsBody l ++ rest) = some (l, rest) := by
  induction l with
  | nil => rfl
  | cons s xs ih =>
      have hs : (encStep s).length ≤ fuel := by
        simp [encStepsBody] at hb; omega
      have hxs : (encStepsBody xs).length ≤ fuel := by
        have := encStep_length_ge s
        simp [encStepsBody] at hb; omega
      simp [encStepsBody, decStepsN, List.append_assoc,
        (dec_enc_fuel fuel).2.2.2 _ _ hs, ih hxs]

theorem decPlan_enc (fuel : Nat) (p : ExecutionPlan) (rest : List Nat)
    (hf : (encPlan p).length ≤ fuel) :
    decPlan fuel (encPlan p ++ rest) = some (p, rest) := by
  have hsteps : (encStepsBody p.steps).length ≤ fuel := by
    have := encStr_length_pos p.intent
    have := encStr_length_pos p.estimated_duration
    simp [encPlan, encBool] at hf; omega
  simp [encPlan, decPlan, List.append_assoc, decStr_encStr,
    decStepsN_enc fuel p.steps _ hsteps, decBool_encBool]

theorem decState_enc (fuel : Nat) (s : WorkflowState) (rest : List Nat)
    (hf : (serialize_state s).length ≤ fuel) :
    decState fuel (serialize_state s ++ rest) = some (s, rest) := by
  have hplan : (encPlan s.plan).length ≤ fuel := by
    simp [serialize_state] at hf; omega
  have hsr : (encSRBody s.step_results).length ≤ fuel := by
    simp [serialize_state, encSRMap] at hf; omega
  have hctx : (encCtxBody s.shared_context).length ≤ fuel := by
    simp [serialize_state, encCtx] at hf; omega
  simp [serialize_state, decState, List.append_assoc,
    decPlan_enc fuel s.plan _ hplan, decStr_encStr, encSRMap, encCtx,
    decSRMapN_enc fuel s.step_results _ hsr,
    decCtxN_enc fuel s.shared_context _ hctx, decStrList_enc,
    decInt_encInt]

theorem deserialize_serialize_state (s : WorkflowState) :
    deserialize_state (serialize_state s) = some s := by
  unfold deserialize_state
  have h := decState_enc (serialize_state s).length s []
    (Nat.le_refl _)
  rw [List.append_nil] at h
  rw [h]

theorem alGet_alPut_self {α : Type} [DecidableEq α] {β : Type}
    (m : List (α × β)) (k : α) (v : β) :
    alGet (alPut m k v) k = some v := by
  induction m with
  | nil => simp [alPut, alGet]
  | cons kv xs ih =>
      obtain ⟨k1, w⟩ := kv
      by_cases h : k1 = k
      · simp [alPut, h, alGet]
      · simp [alPut, h, alGet, ih]

theorem alGet_alPut_ne {α : Type} [DecidableEq α] {β : Type}
    (m : List (α × β)) (k1 k : α) (v : β) (h : k1 ≠ k) :
    alGet (alPut m k1 v) k = alGet m k := by
  induction m with
  | nil => simp [alPut, alGet, h]
  | cons kv xs ih =>
      obtain ⟨k2, w⟩ := kv
      by_cases h2 : k2 = k1
      · subst h2; simp [alPut, alGet, h, ih]
      · simp [alPut, h2, alGet, ih]

theorem alGet_append_of_none {α : Type} [DecidableEq α] {β : Type}
    (a b : List (α × β)) (k : α) (h : alGet a k = none) :
    alGet (a ++ b) k = alGet b k := by
  induction a with
  | nil => simp
  | cons kv xs ih =>
      obtain ⟨k1, w⟩ := kv
      by_cases h1 : k1 = k
      · simp [alGet, h1] at h
      · simp [alGet, h1] at h ⊢
        exact ih h

theorem alGet_append_of_some {α : Type} [DecidableEq α] {β : Type}
    (a b : List (α × β)) (k : α) (v : β) (h : alGet a k = some v) :
    alGet (a ++ b) k = some v := by
  induction a with
  | nil => simp [alGet] at h
  | cons kv xs ih =>
      obtain ⟨k1, w⟩ := kv
      by_cases h1 : k1 = k
      · simp [alGet, h1] at h ⊢; exact h
      · simp [alGet, h1] at h ⊢; exact ih h

theorem alGet_mergeCtxStep_ne (m : List (String × Value))
    (kv : String × Value) (k : String) (h : kv.1 ≠ k) :
    alGet (mergeCtxStep m kv) k = alGet m k := by
  obtain ⟨k1, v⟩ := kv
  simp only [mergeCtxStep]
  cases hg : alGet m k1 with
  | none =>
      cases hk : alGet m k with
      | none => simp [alGet_append_of_none m _ k hk, alGet, h]
      | some w => simp [alGet_append_of_some m _ k w hk, hk]
  | some old =>
      cases old <;> cases v <;> simp [alGet_alPut_ne m k1 k _ h]

theorem alGet_mergeCtxStep_self (m : List (String × Value)) (k : String)
    (v : Value) :
    alGet (mergeCtxStep m (k, v)) k = ctxMergeSpec (alGet m k) (some v) := by
  simp only [mergeCtxStep]
  cases hg : alGet m k with
  | none =>
      have h1 : alGet (m ++ [(k, v)]) k = some v := by
        rw [alGet_append_of_none m _ k hg]; simp [alGet]
      cases v <;> simp [ctxMergeSpec, h1]
  | some old =>
      cases old <;> cases v <;>
        simp [ctxMergeSpec, alGet_alPut_self]

theorem alGet_foldl_mergeCtx_not_mem (n : List (String × Value))
    (m : List (String × Value)) (k : String) (h : ∀ kv ∈ n, kv.1 ≠ k) :
    alGet (n.foldl mergeCtxStep m) k = alGet m k := by
  induction n generalizing m with
  | nil => rfl
  | cons kv n' ih =>
      simp only [List.foldl_cons]
      rw [ih _ (fun x hx => h x (List.mem_cons_of_mem kv hx)),
        alGet_mergeCtxStep_ne m kv k (h kv (List.mem_cons_self kv n'))]

/-- C10: the empty update is a right identity for each of the three state
reducers (`merge_step_results`, `merge_context`, `append_progress`):
merging Python `None`, the empty dict or the empty list leaves the
existing value unchanged, and a `None` existing value acts as the empty
base instead of raising. -/
theorem reducers_empty_identity :
    ∀ (e : List (Int × StepResult)) (c : List (String × Value))
      (p : List String) (u1 : Option (List (Int × StepResult)))
      (u2 : Option (List (String × Value))) (u3 : Option (List String)),
      merge_step_results (some e) none = e ∧
      merge_context (some c) none = c ∧
      append_progress (some p) none = p ∧
      merge_step_results (some e) (some []) = e ∧
      merge_context (some c) (some []) = c ∧
      append_progress (some p) (some []) = p ∧
      merge_step_results none u1 = merge_step_results (some []) u1 ∧
      merge_context none u2 = merge_context (some []) u2 ∧
      append_progress none u3 = append_progress (some []) u3 := by
  intro e c p u1 u2 u3
  refine ⟨rfl, rfl, rfl, rfl, rfl, by simp [append_progress], rfl, rfl, rfl⟩

/-- C3 counterexample: `merge_context` merges dict-valued keys only one
level deep.  With existing `m.inner = {a: 1}` and update
`m.inner = {b: 2}`, the merged `m.inner` is `{b: 2}` — the depth-2 map was
replaced, not merged as the claim's "recursively merged at every depth"
requires (which would give `{a: 1, b: 2}`). -/
theorem merge_context_not_recursive :
    alGet (merge_context
        (some [("m", .vDict [("inner", .vDict [("a", .vInt 1)])])])
        (some [("m", .vDict [("inner", .vDict [("b", .vInt 2)])])])) "m" =
      some (.vDict [("inner", .vDict [("b", .vInt 2)])]) ∧
    (Value.vDict [("inner", .vDict [("b", .vInt 2)])]) ≠
      .vDict [("inner", .vDict [("a", .vInt 1), ("b", .vInt 2)])] := by
  constructor
  · rfl
  · intro h
    simp at h

/-- C3 (amended): per-key semantics of the `merge_context` reducer — a
scalar-valued key in the update overwrites, a key that is list-valued on
both sides concatenates and deduplicates, and a key that is dict-valued on
both sides is merged **one level deep** (`{**old, **new}`, update entries
winning); nested maps below the first level are replaced, not merged.
Keys absent from the update keep their existing value. -/
theorem merge_context_per_key (e n : List (String × Value)) (k : String)
    (hn : (n.map Prod.fst).Nodup) :
    alGet (merge_context (some e) (some n)) k =
      ctxMergeSpec (alGet e k) (alGet n k) := by
  induction n generalizing e with
  | nil =>
      cases hg : alGet e k with
      | none => simp [merge_context, hg, ctxMergeSpec, alGet]
      | some v => cases v <;> simp [merge_context, hg, ctxMergeSpec, alGet]
  | cons kv n' ih =>
      obtain ⟨k1, v1⟩ := kv
      simp only [List.map_cons, List.nodup_cons] at hn
      have ih2 := ih (mergeCtxStep e (k1, v1)) hn.2
      simp only [merge_context, Option.getD_some, List.foldl_cons] at ih2 ⊢
      by_cases hk : k1 = k
      · subst hk
        have hnotin : ∀ kv2 ∈ n', kv2.1 ≠ k1 := by
          intro kv2 h2 hc
          exact hn.1 (hc ▸ List.mem_map_of_mem Prod.fst h2)
        rw [alGet_foldl_mergeCtx_not_mem n' _ k1 hnotin,
          alGet_mergeCtxStep_self]
        simp [alGet]
      · rw [ih2, alGet_mergeCtxStep_ne e (k1, v1) k hk]
        simp [alGet, hk]

/-- C10 has no hypothesis; C3's amended theorem gets its witness below. -/
theorem merge_context_per_key_witness :
    ([(("a" : String), Value.vInt 1)].map Prod.fst).Nodup ∧
    alGet (merge_context (some [("lst", Value.vList [.vInt 1])])
        (some [("a", Value.vInt 1)])) "lst" =
      ctxMergeSpec (alGet [("lst", Value.vList [.vInt 1])] "lst")
        (alGet [(("a" : String), Value.vInt 1)] "lst") :=
  ⟨by simp, merge_context_per_key _ _ "lst" (by simp)⟩

/-- C9: with one failed step result, `finalize_workflow` writes the status
string `partial_completion`, which is outside the five documented status
values of `plan_schema.WorkflowState.status` ("planning", "executing",
"completed", "failed", "interrupted") and is neither of the two terminal
values the claim allows. -/
theorem finalize_status_outside_enum :
    (applyUpdate c9State (finalize_workflow c9State)).status =
      "partial_completion" ∧
    "partial_completion" ∉
      ["planning", "executing", "completed", "failed", "interrupted"] := by
  constructor
  · rfl
  · decide

theorem findInResults_append_none (name : String)
    (pre rest : List (Int × StepResult))
    (h : ∀ kr ∈ pre, alGet kr.2.extracted_data name = none) :
    findInResults (pre ++ rest) name = findInResults rest name := by
  induction pre with
  | nil => rfl
  | cons kr l ih =>
      obtain ⟨k, r⟩ := kr
      have h1 := h (k, r) (List.mem_cons_self _ _)
      simp only [List.cons_append, findInResults, h1]
      exact ih (fun x hx => h x (List.mem_cons_of_mem _ hx))

theorem findInResults_none (name : String) (l : List (Int × StepResult))
    (h : ∀ kr ∈ l, alGet kr.2.extracted_data name = none) :
    findInResults l name = none := by
  induction l with
  | nil => rfl
  | cons kr l ih =>
      obtain ⟨k, r⟩ := kr
      have h1 := h (k, r) (List.mem_cons_self _ _)
      simp only [findInResults, h1]
      exact ih (fun x hx => h x (List.mem_cons_of_mem _ hx))

theorem findListCtx_append (base : String) (pre : List (String × Value))
    (key : String) (v : Value) (post : List (String × Value))
    (hpre : ∀ kv ∈ pre, (isSubstrS base kv.1 && isVList kv.2) = false)
    (hkey : isSubstrS base key = true) (hv : isVList v = true) :
    findListCtx (pre ++ (key, v) :: post) base = some v := by
  induction pre with
  | nil => simp [findListCtx, hkey, hv]
  | cons kv l ih =>
      obtain ⟨k1, v1⟩ := kv
      have h1 := hpre (k1, v1) (List.mem_cons_self _ _)
      simp only [List.cons_append, findListCtx, h1]
      simp only [Bool.false_eq_true, if_false]
      exact ih (fun x hx => hpre x (List.mem_cons_of_mem _ hx))

/-- C5 counterexample: `_lookup_variable` scans `step_results` in dict
insertion order and regardless of result status.  In `c5State` the dict
holds step 2's entry before step 1's, and lookup of `x` returns step 2's
value `b`, not step 1's `a` as the claim's ascending-step-index order
requires; in `c5FailedState` the only result is `failed` yet its
`extracted_data` is still returned, although the claim restricts the scan
to completed steps (which here would find nothing, and tier 3 does not
apply, so the claim's answer is `none`). -/
theorem lookup_variable_order_counterexample :
    lookup_variable "x" c5State = some (.vStr "b") ∧
    Value.vStr "b" ≠ .vStr "a" ∧
    lookup_variable "x" c5FailedState = some (.vStr "f") ∧
    some (Value.vStr "f") ≠ (none : Option Value) := by
  refine ⟨rfl, by simp, rfl, by simp⟩

/-- C5 (amended): precedence of `_lookup_variable` — (1) an exact key in
`shared_context` wins; (2) otherwise the first step result in the
insertion order of the `step_results` dict (regardless of its status)
whose `extracted_data` has the key wins; (3) otherwise, when the name ends
with `_list` or `_emails`, the first `shared_context` entry (in insertion
order) whose key contains the base term (the name with all `_list` and
`_emails` substrings removed) and whose value is a list wins, and a name
without those suffixes resolves to nothing. -/
theorem lookup_variable_precedence (name : String) (s : WorkflowState) :
    (∀ v, alGet s.shared_context name = some v →
      lookup_variable name s = some v) ∧
    (alGet s.shared_context name = none →
      ∀ pre k r post, s.step_results = pre ++ (k, r) :: post →
        (∀ kr ∈ pre, alGet kr.2.extracted_data name = none) →
        ∀ v, alGet r.extracted_data name = some v →
          lookup_variable name s = some v) ∧
    (alGet s.shared_context name = none →
      (∀ kr ∈ s.step_results, alGet kr.2.extracted_data name = none) →
      ((pyEndsWith "_list" name = false ∧ pyEndsWith "_emails" name = false)
        → lookup_variable name s = none) ∧
      (∀ pre key v post,
        (pyEndsWith "_list" name || pyEndsWith "_emails" name) = true →
        s.shared_context = pre ++ (key, v) :: post →
        (∀ kv ∈ pre, (isSubstrS (pyReplace (pyReplace name "_list" "")
          "_emails" "") kv.1 && isVList kv.2) = false) →
        isSubstrS (pyReplace (pyReplace name "_list" "") "_emails" "") key
          = true →
        isVList v = true →
        lookup_variable name s = some v)) := by
  refine ⟨?_, ?_, ?_⟩
  · intro v h
    simp [lookup_variable, h]
  · intro h pre k r post hsr hpre v hv
    have hf : findInResults s.step_results name = some v := by
      rw [hsr, findInResults_append_none name pre _ hpre]
      simp [findInResults, hv]
    simp [lookup_variable, h, hf]
  · intro h hall
    have hf : findInResults s.step_results name = none :=
      findInResults_none name _ hall
    constructor
    · intro ⟨h1, h2⟩
      simp [lookup_variable, h, hf, h1, h2]
    · intro pre key v post hsuf hctx hpre hkey hv
      have hl : findListCtx s.shared_context
          (pyReplace (pyReplace name "_list" "") "_emails" "") = some v := by
        rw [hctx]
        exact findListCtx_append _ pre key v post hpre hkey hv
      simp only [lookup_variable, h, hf, hsuf, if_true]
      exact hl

/-- Witness for the amended lookup-precedence theorem: tier 1 applied to a
concrete state. -/
theorem lookup_variable_precedence_witness :
    alGet c4State.shared_context "a" = some (.vStr "1") ∧
    lookup_variable "a" c4State = some (.vStr "1") :=
  ⟨rfl, (lookup_variable_precedence "a" c4State).1 _ rfl⟩

theorem placeholder_data (name : String) :
    (placeholder name).data = lb :: lb :: (name.data ++ [rb, rb]) := by
  simp [placeholder, lbb, rbb, String.data_append]

theorem placeholder_startsWith (name : String) :
    pyStartsWith lbb (placeholder name) = true := by
  rw [pyStartsWith, placeholder_data]
  have : lbb.data = [lb, lb] := rfl
  rw [this]
  have h : ([lb, lb] : List Char) ++ (name.data ++ [rb, rb]) =
      lb :: lb :: (name.data ++ [rb, rb]) := rfl
  rw [← h]
  simp [List.isPrefixOf_iff_prefix]

theorem placeholder_endsWith (name : String) :
    pyEndsWith rbb (placeholder name) = true := by
  rw [pyEndsWith, placeholder_data]
  have hr : rbb.data = [rb, rb] := rfl
  have h : lb :: lb :: (name.data ++ [rb, rb]) =
      (lb :: lb :: name.data) ++ [rb, rb] := by simp
  rw [hr, h]
  simp only [List.isSuffixOf_iff_suffix]
  exact List.suffix_append _ _

theorem subElem_of_isPrefixOf (pat l : List Char)
    (h : pat.isPrefixOf l = true) : subElem pat l = true := by
  cases l with
  | nil =>
      cases pat with
      | nil => rfl
      | cons c cs => simp [List.isPrefixOf] at h
  | cons c cs => simp [subElem, h]

theorem subElem_append_right (pat l r : List Char)
    (h : subElem pat r = true) : subElem pat (l ++ r) = true := by
  induction l with
  | nil => exact h
  | cons c cs ih =>
      simp only [List.cons_append, subElem]
      cases hp : pat.isPrefixOf (c :: (cs ++ r)) <;> simp [hp, ih]

theorem placeholder_substr_lbb (name : String) :
    isSubstrS lbb (placeholder name) = true := by
  rw [isSubstrS, placeholder_data]
  refine subElem_of_isPrefixOf _ _ ?_
  have hl : lbb.data = [lb, lb] := rfl
  rw [hl]
  simp [List.isPrefixOf]

theorem placeholder_substr_rbb (name : String) :
    isSubstrS rbb (placeholder name) = true := by
  rw [isSubstrS, placeholder_data]
  have h : lb :: lb :: (name.data ++ [rb, rb]) =
      (lb :: lb :: name.data) ++ [rb, rb] := by simp
  rw [h]
  refine subElem_append_right _ _ _ (subElem_of_isPrefixOf _ _ ?_)
  have hr : rbb.data = [rb, rb] := rfl
  rw [hr]
  simp [List.isPrefixOf]

theorem placeholder_slice (name : String) :
    pySlice2m2 (placeholder name) = name := by
  rw [pySlice2m2, placeholder_data]
  have h : (lb :: lb :: (name.data ++ [rb, rb])).drop 2 =
      name.data ++ [rb, rb] := rfl
  rw [h]
  have h2 : (name.data ++ [rb, rb]).length - 2 = name.data.length := by
    simp
  rw [h2]
  have h3 : (name.data ++ [rb, rb]).take name.data.length = name.data :=
    List.take_left name.data [rb, rb]
  rw [h3]

theorem placeholder_inj (a b : String)
    (h : placeholder a = placeholder b) : a = b := by
  have hd := congrArg String.data h
  rw [placeholder_data, placeholder_data] at hd
  simp only [List.cons.injEq, true_and] at hd
  exact String.ext (List.append_cancel_right hd)

theorem foldl_alPut_not_mem {β : Type} (l : List (String × β))
    (f : String × β → β) (acc : List (String × β)) (k : String)
    (h : ∀ kv ∈ l, kv.1 ≠ k) :
    alGet (l.foldl (fun a kv => alPut a kv.1 (f kv)) acc) k =
      alGet acc k := by
  induction l generalizing acc with
  | nil => rfl
  | cons kv l ih =>
      simp only [List.foldl_cons]
      rw [ih _ (fun x hx => h x (List.mem_cons_of_mem _ hx)),
        alGet_alPut_ne _ _ _ _ (h kv (List.mem_cons_self _ _))]

theorem foldl_alPut_get (s : WorkflowState) (params : List (String × Value))
    (acc : List (String × Value)) (k : String) (v : Value)
    (hnd : (params.map Prod.fst).Nodup) (hv : alGet params k = some v) :
    alGet (params.foldl
      (fun a kv => alPut a kv.1 (resolveOneParam kv.2 s)) acc) k =
      some (resolveOneParam v s) := by
  induction params generalizing acc with
  | nil => simp [alGet] at hv
  | cons kv rest ih =>
      obtain ⟨k1, v1⟩ := kv
      simp only [List.map_cons, List.nodup_cons] at hnd
      simp only [List.foldl_cons]
      by_cases hk : k1 = k
      · subst hk
        simp [alGet] at hv
        subst hv
        rw [foldl_alPut_not_mem rest _ _ k1
          (fun x hx hc => hnd.1 (hc ▸ List.mem_map_of_mem Prod.fst hx))]
        exact alGet_alPut_self _ _ _
      · simp only [alGet, if_neg hk] at hv
        exact ih _ hnd.2 hv

theorem alGet_alPut_guard (p : List (String × Value)) (k key : String)
    (val : Value) (w : Value) (cond : Bool)
    (hcond : cond = true → alHas p key = false) (h : alGet p k = some w) :
    alGet (if cond then alPut p key val else p) k = some w := by
  cases cond with
  | false => simpa using h
  | true =>
      have hkey : key ≠ k := by
        intro hc
        subst hc
        have := hcond rfl
        rw [alHas, h] at this
        simp at this
      simpa [alGet_alPut_ne _ _ _ _ hkey] using h

theorem alGet_add_smart_defaults (p : List (String × Value)) (k : String)
    (w : Value) (h : alGet p k = some w) :
    alGet (add_smart_defaults p) k = some w := by
  rw [add_smart_defaults]
  apply alGet_alPut_guard _ _ _ _ _ _ (fun hc => by
    revert hc
    cases h4 : alHas _ "include_meet" <;> simp [h4])
  apply alGet_alPut_guard _ _ _ _ _ _ (fun hc => by
    revert hc
    cases h3 : alHas _ "timezone" <;> simp [h3])
  apply alGet_alPut_guard _ _ _ _ _ _ (fun hc => by
    revert hc
    cases h2 : alHas _ "body" <;> simp [h2])
  apply alGet_alPut_guard _ _ _ _ _ _ (fun hc => by
    revert hc
    cases h1 : alHas _ "subject" <;> simp [h1])
  exact h

theorem resolve_template_variables_per_key (params : List (String × Value))
    (s : WorkflowState) (k : String) (v : Value)
    (hnd : (params.map Prod.fst).Nodup) (hv : alGet params k = some v) :
    alGet (resolve_template_variables params s) k =
      some (resolveOneParam v s) := by
  rw [resolve_template_variables]
  have h1 := foldl_alPut_get s params [] k v hnd hv
  apply alGet_add_smart_defaults
  cases hu : alHas (params.foldl
      (fun a kv => alPut a kv.1 (resolveOneParam kv.2 s)) []) "user_id" with
  | true => simpa [hu] using h1
  | false =>
      simp only [hu, Bool.false_eq_true, if_false]
      have huk : "user_id" ≠ k := by
        intro hc
        subst hc
        rw [alHas, h1] at hu
        simp at hu
      rw [alGet_alPut_ne _ _ _ _ huk]
      exact h1

/-- C4 counterexample: the parameter string built of two placeholders,
`\x7b\x7ba\x7d\x7d x \x7b\x7bb\x7d\x7d`, starts with two opening braces
and ends with two closing braces, so `_resolve_template_variables` treats
the whole string as a single exact placeholder named `a\x7d\x7d x
\x7b\x7bb`; that lookup fails and the string is returned verbatim, even
though both `a` and `b` are individually resolvable and the partial
substitution path would have produced `1 x 2` as the claim requires. -/
theorem template_partial_counterexample :
    alGet (resolve_template_variables [("body", .vStr c4Text)] c4State)
      "body" = some (.vStr c4Text) ∧
    lookup_variable "a" c4State = some (.vStr "1") ∧
    lookup_variable "b" c4State = some (.vStr "2") ∧
    resolve_partial_templates c4Text c4State = "1 x 2" ∧
    c4Text ≠ "1 x 2" := by
  refine ⟨rfl, rfl, rfl, rfl, by decide⟩

/-- C4 (amended): per-parameter behaviour of
`_resolve_template_variables` (resolution is a total function; the
original bindings survive the later defaulting passes).  A value that is
exactly `(2 braces)user_id(2 braces)` resolves to the owning user id; any
other value that both starts with two opening braces and ends with two
closing braces is treated as ONE exact placeholder whose name is the
whole inner text — it is replaced by the looked-up value with its native
type preserved when resolvable and kept verbatim otherwise (so a string
containing several placeholders but shaped this way is NOT substituted
occurrence by occurrence); a string containing braces pairs but not of
that shape has each resolvable `(2 braces)name(2 braces)` occurrence
textually substituted by the `str` form of its value after the user-id
substitution; strings without a brace pair and non-string values pass
through unchanged. -/
theorem template_resolution_amended (params : List (String × Value))
    (s : WorkflowState) (k : String) (v : Value)
    (hnd : (params.map Prod.fst).Nodup) (hv : alGet params k = some v) :
    (v = .vStr (placeholder "user_id") →
      alGet (resolve_template_variables params s) k =
        some (.vStr s.user_id)) ∧
    (∀ name rv, v = .vStr (placeholder name) → name ≠ "user_id" →
      lookup_variable name s = some rv →
      alGet (resolve_template_variables params s) k = some rv) ∧
    (∀ name, v = .vStr (placeholder name) → name ≠ "user_id" →
      lookup_variable name s = none →
      alGet (resolve_template_variables params s) k = some v) ∧
    (∀ sv, v = .vStr sv →
      (pyStartsWith lbb sv && pyEndsWith rbb sv) = false →
      (isSubstrS lbb sv && isSubstrS rbb sv) = true →
      alGet (resolve_template_variables params s) k =
        some (.vStr (resolve_partial_templates
          (pyReplace sv (placeholder "user_id") s.user_id) s))) ∧
    (∀ sv, v = .vStr sv → (isSubstrS lbb sv && isSubstrS rbb sv) = false →
      alGet (resolve_template_variables params s) k = some v) ∧
    ((∀ str2, v ≠ .vStr str2) →
      alGet (resolve_template_variables params s) k = some v) := by
  have hper := resolve_template_variables_per_key params s k v hnd hv
  refine ⟨?_, ?_, ?_, ?_, ?_, ?_⟩
  · intro hveq
    subst hveq
    rw [hper]
    simp [resolveOneParam, placeholder_substr_lbb, placeholder_substr_rbb]
  · intro name rv hveq hname hlook
    subst hveq
    rw [hper]
    have hbeq : (placeholder name == placeholder "user_id") = false :=
      beq_eq_false_iff_ne.mpr (fun hc => hname (placeholder_inj _ _ hc))
    simp [resolveOneParam, placeholder_substr_lbb, placeholder_substr_rbb,
      hbeq, placeholder_startsWith, placeholder_endsWith,
      placeholder_slice, hlook]
  · intro name hveq hname hlook
    subst hveq
    rw [hper]
    have hbeq : (placeholder name == placeholder "user_id") = false :=
      beq_eq_false_iff_ne.mpr (fun hc => hname (placeholder_inj _ _ hc))
    simp [resolveOneParam, placeholder_substr_lbb, placeholder_substr_rbb,
      hbeq, placeholder_startsWith, placeholder_endsWith,
      placeholder_slice, hlook]
  · intro sv hveq hnotexact hsub
    subst hveq
    rw [hper]
    have hbeq : (sv == placeholder "user_id") = false := by
      cases hb : sv == placeholder "user_id" with
      | false => rfl
      | true =>
          exfalso
          have hsv : sv = placeholder "user_id" := eq_of_beq hb
          rw [hsv, placeholder_startsWith, placeholder_endsWith]
            at hnotexact
          simp at hnotexact
    obtain ⟨h1, h2⟩ :=
      (by simpa using hsub : isSubstrS lbb sv = true ∧ isSubstrS rbb sv = true)
    simp [resolveOneParam, h1, h2, hbeq, hnotexact]
  · intro sv hveq hsub
    subst hveq
    rw [hper]
    simp [resolveOneParam, hsub]
  · intro hnostr
    rw [hper]
    cases v with
    | vStr s2 => exact absurd rfl (hnostr s2)
    | vInt n => rfl
    | vBool b => rfl
    | vList xs => rfl
    | vDict xs => rfl
    | vStep st => rfl

/-- Witness for the amended template theorem: an exact placeholder bound
to a three-element list resolves to that exact list object (native type
preserved). -/
theorem template_resolution_amended_witness :
    ([(("to" : String), Value.vStr (placeholder "contact_list"))].map
      Prod.fst).Nodup ∧
    lookup_variable "contact_list" c4ListState =
      some (.vList [.vStr "a@x.com", .vStr "b@x.com", .vStr "c@x.com"]) ∧
    alGet (resolve_template_variables
        [("to", .vStr (placeholder "contact_list"))] c4ListState) "to" =
      some (.vList [.vStr "a@x.com", .vStr "b@x.com", .vStr "c@x.com"]) :=
  ⟨by simp, rfl,
    (template_resolution_amended
        [("to", .vStr (placeholder "contact_list"))] c4ListState "to"
        (.vStr (placeholder "contact_list")) (by simp) rfl).2.1
      "contact_list" _ rfl (by decide) rfl⟩

theorem foldl_append_g {α β : Type} (g : α → List β) (l : List α)
    (acc : List β) :
    l.foldl (fun a d => a ++ g d) acc = acc ++ l.flatMap g := by
  induction l generalizing acc with
  | nil => simp
  | cons x xs ih => simp [ih, List.append_assoc]

theorem check_step_dependencies_eq (s : WorkflowState)
    (step : ExecutionStep) :
    check_step_dependencies s step =
      ((step.dependencies.flatMap (depMissing s)).isEmpty,
        step.dependencies.flatMap (depMissing s)) := by
  rw [check_step_dependencies]
  by_cases he : step.dependencies.isEmpty
  · rw [List.isEmpty_iff] at he
    simp [he]
  · have hb : (fun (acc : List Value) (dep : Int) =>
        match alGet s.step_results dep with
        | none => acc ++ [Value.vInt dep]
        | some r =>
            if r.status ≠ "completed" then
              acc ++ [Value.vStr ("step_" ++ toString dep ++ "_failed")]
            else acc) = (fun acc dep => acc ++ depMissing s dep) := by
      funext acc dep
      cases h : alGet s.step_results dep with
      | none => simp [depMissing, h]
      | some r =>
          by_cases hst : r.status = "completed" <;>
            simp [depMissing, h, hst]
    simp only [he, Bool.false_eq_true, if_false, hb,
      foldl_append_g (depMissing s) step.dependencies [], List.nil_append]

theorem depMissing_nil_iff (s : WorkflowState) (d : Int) :
    depMissing s d = [] ↔
      ∃ r, alGet s.step_results d = some r ∧ r.status = "completed" := by
  rw [depMissing]
  cases h : alGet s.step_results d with
  | none => simp
  | some r =>
      by_cases hst : r.status = "completed" <;> simp [hst]

/-- C6: a step at the cursor is judged ready iff every dependency index
has a `StepResult` with status `completed` (a `failed` dependency counts
as missing, contributing the `step_N_failed` marker); when the step is
not ready, `execute_step` records the fact as the step's own failed
`StepResult` whose message lists the missing dependencies, and advances
the cursor — it neither crashes nor skips silently. -/
theorem dependency_gate (env : EngineEnv) (s : WorkflowState)
    (step : ExecutionStep) (k : Int)
    (hk : s.current_step = k)
    (hle : k ≤ (s.plan.steps.length : Int))
    (hstep : pyGet s.plan.steps (k - 1) = some step)
    (hnotdone : ∀ r, alGet s.step_results k = some r →
      r.status ≠ "completed")
    (hce : ∃ ceD, (alGet s.shared_context "current_execution").getD
        (.vDict []) = .vDict ceD ∧
      ((match alGet ceD "step_index" with
        | some (.vInt j) => j == k
        | _ => false) = false ∨
       pyTruthy ((alGet ceD "tool_executed").getD (.vBool false)) =
         false)) :
    ((check_step_dependencies s step).1 = true ↔
      ∀ d ∈ step.dependencies, ∃ r, alGet s.step_results d = some r ∧
        r.status = "completed") ∧
    ((check_step_dependencies s step).1 = false →
      execute_step env s = create_failed_step_result k (some step)
        ("Dependencies not satisfied for step " ++ toString k ++ ": " ++
          pyStr (.vList (check_step_dependencies s step).2)) ∧
      alGet (applyUpdate s (execute_step env s)).step_results k = some
        { step_index := k, tool := step.tool, action := step.action
          status := "failed"
          raw_output := [("error", "Dependencies not satisfied for step "
            ++ toString k ++ ": " ++
            pyStr (.vList (check_step_dependencies s step).2) |> .vStr)]
          extracted_data := []
          error_message := some ("Dependencies not satisfied for step " ++
            toString k ++ ": " ++
            pyStr (.vList (check_step_dependencies s step).2)) } ∧
      (applyUpdate s (execute_step env s)).current_step = k + 1) := by
  constructor
  · rw [check_step_dependencies_eq]
    simp only [List.isEmpty_iff, List.flatMap_eq_nil_iff]
    constructor
    · intro h d hd
      exact (depMissing_nil_iff s d).mp (h d hd)
    · intro h d hd
      exact (depMissing_nil_iff s d).mpr (h d hd)
  · intro hdep
    obtain ⟨ceD, hceD, hbypass⟩ := hce
    have hngt : ¬(k > (s.plan.steps.length : Int)) := not_lt.mpr hle
    have hskip : (match alGet s.step_results k with
        | some r => r.status == "completed"
        | none => false) = false := by
      cases h2 : alGet s.step_results k with
      | none => rfl
      | some r => exact beq_eq_false_iff_ne.mpr (hnotdone r h2)
    have hcond : ((match alGet ceD "step_index" with
        | some (.vInt j) => j == k
        | _ => false) &&
        pyTruthy ((alGet ceD "tool_executed").getD (.vBool false))) =
          false := by
      rcases hbypass with h | h <;> simp [h]
    have hexec : execute_step env s = create_failed_step_result k
        (some step) ("Dependencies not satisfied for step " ++ toString k
          ++ ": " ++ pyStr (.vList (check_step_dependencies s step).2)) := by
      rw [execute_step, hk, hstep]
      simp only [hngt, if_false, hskip, Bool.false_eq_true, hceD, asDict,
        hcond, hdep]
      simp [hdep]
    refine ⟨hexec, ?_, ?_⟩
    · rw [hexec]
      simp [create_failed_step_result, update_step_completion,
        applyUpdate, merge_step_results, alUpdate, alGet_alPut_self]
    · rw [hexec]
      simp [create_failed_step_result, update_step_completion, applyUpdate]

/-- Witness for the dependency gate: step 2 of `c6Plan` at the cursor with
no result for its dependency 1. -/
theorem dependency_gate_witness :
    (check_step_dependencies c6State demoStep2).1 = false ∧
    (applyUpdate c6State (execute_step demoEnv c6State)).current_step = 3 := by
  have h := dependency_gate demoEnv c6State demoStep2 2 rfl (by decide)
    rfl (by intro r hr; cases hr) ⟨[], rfl, Or.inl rfl⟩
  exact ⟨rfl, ((h.2 rfl).2.2)⟩

/-- C7: a tool call that raises is caught and converted into exactly one
failed `StepResult` whose `error_message` is the exception text — by
`execute_tools_directly` in the engine (the update carries the singleton
result dict and one error count) and by the `ExecutionNode.execute`
normalization of `execution_nodes.py`; the executor returns an update
instead of propagating, and the graph transition after the tool node
always hands control back to the step executor. -/
theorem tool_exception_containment (env : EngineEnv) (s : WorkflowState)
    (ceD tcD : List (String × Value)) (st : ExecutionStep) (k : Int)
    (tn : String) (rp : Value) (msg : String)
    (hce : alGet s.shared_context "current_execution" = some (.vDict ceD))
    (hstep : alGet ceD "step" = some (.vStep st))
    (hidx : alGet ceD "step_index" = some (.vInt k))
    (htc : alGet ceD "tool_context" = some (.vDict tcD))
    (htcne : tcD ≠ [])
    (htn : alGet tcD "tool_name" = some (.vStr tn))
    (hrp : alGet tcD "resolved_params" = some rp)
    (hreg : tn ∈ env.toolNames)
    (hinv : env.toolInvoke tn rp = .error msg) :
    (execute_tools env s).step_results = some [(k,
      { step_index := k, tool := st.tool, action := st.action
        status := "failed", raw_output := [("error", .vStr msg)]
        extracted_data := [], error_message := some msg })] ∧
    (execute_tools env s).error_count = some 1 ∧
    (engine_step env (.execTools, s)).1 = .execStep ∧
    gmail_node_execute k st.tool st.action (.error msg) =
      { step_index := k, tool := st.tool, action := st.action
        status := "failed", raw_output := [], extracted_data := []
        error_message := some msg } := by
  have htruthy : pyTruthy (.vDict tcD) = true := by
    simp [pyTruthy, htcne]
  have hexc : execute_tools env s = execute_tools_except s msg := by
    rw [execute_tools]
    simp only [hce, Option.getD_some, asDict, hstep, htc, htruthy,
      Bool.not_true, Bool.false_eq_true, if_false, hidx, htn, hrp, hreg,
      if_true, hinv]
  have hfail : execute_tools_except s msg = create_failed_step_result k
      (some st) msg := by
    rw [execute_tools_except]
    simp only [hce, Option.getD_some, asDict, hstep, hidx]
  rw [hexc, hfail]
  refine ⟨?_, ?_, rfl, rfl⟩
  · simp [create_failed_step_result, update_step_completion]
  · simp [create_failed_step_result, update_step_completion]

/-- Witness for C7 at a concrete mid-execution state whose tool raises. -/
theorem tool_exception_containment_witness :
    (execute_tools c7Env c7State).step_results = some [(1,
      { step_index := 1, tool := .gmail, action := .read_emails
        status := "failed"
        raw_output := [("error", .vStr "API quota exceeded")]
        extracted_data := []
        error_message := some "API quota exceeded" })] :=
  (tool_exception_containment c7Env c7State
    [("step_index", .vInt 1), ("step", .vStep demoStep1),
     ("tool_context", .vDict c7ToolCtx),
     ("needs_tool_execution", .vBool true),
     ("tool_executed", .vBool false)]
    c7ToolCtx demoStep1 1 "read_recent_emails_tool"
    (.vDict [("user_id", .vStr "u1")]) "API quota exceeded"
    rfl rfl rfl rfl (by simp [c7ToolCtx]) rfl rfl
    (by simp [c7Env]) rfl).1

/-- C2 counterexample: a `failed` result is terminal by the claim, yet
re-entering the engine over `c2State` (which holds a failed result for
step 1 at the cursor) re-executes step 1's tool call and overwrites the
stored `StepResult`: after two graph transitions the result for step 1 is
a fresh `completed` record carrying the tool's new output.  Only a
`completed` result short-circuits the skip check of `execute_step`. -/
theorem reentry_counterexample :
    (alGet c2State.step_results 1).map StepResult.status = some "failed" ∧
    (alGet (engine_run demoEnv 2 (.execStep, c2State)).2.step_results
      1).map StepResult.status = some "completed" ∧
    (alGet (engine_run demoEnv 2 (.execStep, c2State)).2.step_results
      1).map StepResult.raw_output =
        some [("result", .vStr "done read_recent_emails_tool")] ∧
    some "completed" ≠ some "failed" := by
  refine ⟨rfl, rfl, rfl, by simp⟩

/-- C2 (amended): a `completed` `StepResult` for the step at the cursor
makes the engine loop skip it — `execute_step` returns only the advanced
cursor, the stored results and shared context are unchanged, and the next
transition is never the tool-execution node (given an execution context
that is not mid-flight).  A `failed` result, by contrast, does not guard
against re-execution (see the counterexample). -/
theorem reentry_completed_skip (env : EngineEnv) (s : WorkflowState)
    (k : Int) (r : StepResult) (step : ExecutionStep)
    (hk : s.current_step = k)
    (hle : k ≤ (s.plan.steps.length : Int))
    (hstep : pyGet s.plan.steps (k - 1) = some step)
    (hres : alGet s.step_results k = some r)
    (hstat : r.status = "completed")
    (hce : ∀ ceD, (alGet s.shared_context "current_execution").getD
        (.vDict []) = .vDict ceD →
      ¬(pyTruthy ((alGet ceD "needs_tool_execution").getD (.vBool false))
          = true ∧
        pyTruthy ((alGet ceD "tool_executed").getD (.vBool false)) =
          false)) :
    execute_step env s = { current_step := some (k + 1) } ∧
    (applyUpdate s (execute_step env s)).step_results = s.step_results ∧
    (applyUpdate s (execute_step env s)).shared_context =
      s.shared_context ∧
    (applyUpdate s (execute_step env s)).current_step = k + 1 ∧
    (engine_step env (.execStep, s)).1 ≠ .execTools := by
  have hngt : ¬(k > (s.plan.steps.length : Int)) := not_lt.mpr hle
  have hexec : execute_step env s = { current_step := some (k + 1) } := by
    rw [execute_step, hk, hstep]
    simp only [hngt, if_false, hres, hstat]
    simp
  have happly := hexec
  refine ⟨hexec, ?_, ?_, ?_, ?_⟩
  · rw [hexec]; rfl
  · rw [hexec]; rfl
  · rw [hexec]; rfl
  · have hs2 : applyUpdate s (execute_step env s) =
        { s with current_step := k + 1 } := by
      rw [hexec]
      simp [applyUpdate, merge_step_results, merge_context,
        append_progress]
    have hroute : route_from_step_executor
        (applyUpdate s (execute_step env s)) ≠ .execTools := by
      rw [hs2, route_from_step_executor]
      by_cases h1 : ({ s with current_step := k + 1 } :
          WorkflowState).status == "failed"
      · simp [h1]
      · simp only [h1, Bool.false_eq_true, if_false]
        by_cases h2 : ((k + 1 : Int) >
            (s.plan.steps.length : Int))
        · simp [h2]
        · simp only [h2, if_false]
          cases hdict : asDict ((alGet s.shared_context
              "current_execution").getD (.vDict [])) with
          | none => simp
          | some ceD =>
              have hne := hce ceD (by
                cases hval : (alGet s.shared_context
                    "current_execution").getD (.vDict []) with
                | vDict xs => rw [hval] at hdict; simp [asDict] at hdict;
                              rw [hdict]
                | vStr a => rw [hval] at hdict; simp [asDict] at hdict
                | vInt a => rw [hval] at hdict; simp [asDict] at hdict
                | vBool a => rw [hval] at hdict; simp [asDict] at hdict
                | vList a => rw [hval] at hdict; simp [asDict] at hdict
                | vStep a => rw [hval] at hdict; simp [asDict] at hdict)
              cases hn : pyTruthy ((alGet ceD
                  "needs_tool_execution").getD (.vBool false)) with
              | false => simp [hn]
              | true =>
                  cases ht : pyTruthy ((alGet ceD "tool_executed").getD
                      (.vBool false)) with
                  | false => exact absurd ⟨hn, ht⟩ hne
                  | true => simp [hn, ht]
    intro hcontra
    apply hroute
    revert hcontra
    rw [engine_step]
    cases hr : route_from_step_executor
        (applyUpdate s (execute_step env s)) <;> simp [hr]

/-- Witness for the amended re-entry theorem: a state holding a completed
result for step 1 at the cursor is skipped without change. -/
theorem reentry_completed_skip_witness :
    (applyUpdate c2DoneState
      (execute_step demoEnv c2DoneState)).step_results =
        c2DoneState.step_results ∧
    (applyUpdate c2DoneState
      (execute_step demoEnv c2DoneState)).current_step = 2 := by
  have h := reentry_completed_skip demoEnv c2DoneState 1 completedResult1
    demoStep1 rfl (by decide) rfl rfl rfl
    (by
      intro ceD h
      injection h with h2
      subst h2
      simp [alGet, pyTruthy])
  exact ⟨h.2.1, h.2.2.2.1⟩

theorem engine_run_add (env : EngineEnv) (m n : Nat)
    (c : NodeTag × WorkflowState) :
    engine_run env (m + n) c = engine_run env n (engine_run env m c) := by
  induction m generalizing c with
  | zero => simp [engine_run]
  | succ m ih =>
      have h : m + 1 + n = (m + n) + 1 := by omega
      rw [h, engine_run, engine_run, ih]

/-- C1: full-fidelity checkpoint round trip and resumption.  Writing a
mid-execution `WorkflowState` to the (spec-modelled) byte stream and
reading it back yields the identical state — in particular identical
`current_step`, `step_results` and `shared_context`, with nothing lost or
added — and resuming the engine loop from that state for `n` further
transitions reaches exactly the configuration the uninterrupted run
reaches after `m + n` transitions, for every choice of deterministic tool
behaviour `env`. -/
theorem checkpoint_round_trip (env : EngineEnv) (m n : Nat)
    (c0 : NodeTag × WorkflowState) (s : WorkflowState)
    (h : engine_run env m c0 = (.execStep, s)) :
    deserialize_state (serialize_state s) = some s ∧
    engine_run env n (.execStep, s) = engine_run env (m + n) c0 := by
  refine ⟨deserialize_serialize_state s, ?_⟩
  rw [engine_run_add, h]

/-- Witness for the checkpoint theorem: `demoPlan` interrupted after three
transitions (start, preparation of step 1, tool call of step 1) and
resumed for five more, against the uninterrupted eight-transition run. -/
theorem checkpoint_round_trip_witness :
    deserialize_state (serialize_state c1Mid) = some c1Mid ∧
    engine_run demoEnv 5 (.execStep, c1Mid) =
      engine_run demoEnv (3 + 5) (.start, demoState0) := by
  have h : engine_run demoEnv 3 (.start, demoState0) =
      (.execStep, c1Mid) := by
    have h1 : (engine_run demoEnv 3 (.start, demoState0)).1 =
        NodeTag.execStep := rfl
    exact Prod.ext h1 rfl
  exact checkpoint_round_trip demoEnv 3 5 (.start, demoState0) c1Mid h

theorem hasCycle_future_dep (plan : ExecutionPlan) (h : HasCycle plan) :
    ∃ s ∈ plan.steps, ∃ d ∈ s.dependencies, s.step_index ≤ d := by
  by_contra hall
  push_neg at hall
  obtain ⟨i, hg⟩ := h
  have hmono : ∀ a b, depRel plan a b → b < a := by
    intro a b hr
    obtain ⟨st, hfind, hdep⟩ := hr
    have hsteq : st.step_index = a := by
      have := List.find?_some hfind
      simpa using this
    have hmem := List.mem_of_find?_eq_some hfind
    have hlt := hall st hmem b hdep
    rw [hsteq] at hlt
    exact hlt
  have htg : Relation.TransGen (fun a b : Int => b < a) i i :=
    Relation.TransGen.mono hmono hg
  have hlt : ∀ a b : Int, Relation.TransGen (fun a b : Int => b < a) a b →
      b < a := by
    intro a b h2
    induction h2 with
    | single h3 => exact h3
    | tail _ h3 ih => exact lt_trans h3 ih
  exact lt_irrefl i (hlt i i htg)

theorem check_circular_false (steps : List ExecutionStep)
    (hwf : ∀ s ∈ steps, ∀ d ∈ s.dependencies, d < s.step_index) :
    ∀ fuel : Nat,
      (∀ cur path visited, (∀ x ∈ path, cur < x) →
        (check_circular steps fuel cur path visited).1 = false) ∧
      (∀ ds path visited, (∀ d ∈ ds, ∀ x ∈ path, d < x) →
        (check_circular_deps steps fuel ds path visited).1 = false) := by
  intro fuel
  induction fuel with
  | zero => exact ⟨fun _ _ _ _ => rfl, fun _ _ _ _ => rfl⟩
  | succ fuel ih =>
      constructor
      · intro cur path visited hinv
        rw [check_circular]
        have hnotin : ¬(cur ∈ path) := fun hc => lt_irrefl cur (hinv cur hc)
        simp only [hnotin, if_false]
        by_cases hv : cur ∈ visited
        · simp [hv]
        · simp only [hv, if_false]
          cases hfind : steps.find? (fun s => s.step_index == cur) with
          | none => simp
          | some st =>
              have hsteq : st.step_index = cur := by
                simpa using List.find?_some hfind
              have hmem := List.mem_of_find?_eq_some hfind
              simp only []
              apply ih.2
              intro d hd x hx
              have hdlt : d < cur := hsteq ▸ hwf st hmem d hd
              rcases List.mem_cons.mp hx with rfl | hx2
              · exact hdlt
              · exact lt_trans hdlt (hinv x hx2)
      · intro ds path visited hinv
        cases ds with
        | nil => rw [check_circular_deps]
        | cons d ds2 =>
            rw [check_circular_deps]
            rcases hcc : check_circular steps fuel d path visited
              with ⟨b, vis⟩
            have hb : b = false := by
              have := ih.1 d path visited (hinv d (List.mem_cons_self _ _))
              rw [hcc] at this
              exact this
            subst hb
            simp only []
            exact ih.2 ds2 path vis
              (fun d2 hd2 => hinv d2 (List.mem_cons_of_mem _ hd2))

theorem setEqInt_true_iff (xs ys : List Int) :
    setEqInt xs ys = true ↔
      ((∀ x ∈ xs, x ∈ ys) ∧ ∀ y ∈ ys, y ∈ xs) := by
  simp [setEqInt, List.all_eq_true]

theorem indexIssues_nil (plan : ExecutionPlan)
    (hiff : ∀ i : Int, i ∈ plan.steps.map ExecutionStep.step_index ↔
      i ∈ rangeIndices plan.steps.length) :
    indexIssues plan = [] := by
  rw [indexIssues]
  have hset : setEqInt (rangeIndices plan.steps.length)
      (plan.steps.map ExecutionStep.step_index)
      = true :=
    (setEqInt_true_iff _ _).mpr
      ⟨fun x hx => (hiff x).mpr hx, fun y hy => (hiff y).mp hy⟩
  simp [hset]

theorem depIssues_nil (plan : ExecutionPlan)
    (hwf : ∀ s ∈ plan.steps, ∀ d ∈ s.dependencies,
      d ∈ plan.steps.map ExecutionStep.step_index ∧ d < s.step_index) :
    depIssues plan = [] := by
  rw [depIssues, List.flatMap_eq_nil_iff]
  intro s hs
  rw [List.flatMap_eq_nil_iff]
  intro d hd
  obtain ⟨hmem, hlt⟩ := hwf s hs d hd
  simp [not_le.mpr hlt, hmem]

theorem circularIssues_nil (plan : ExecutionPlan)
    (hwf : ∀ s ∈ plan.steps, ∀ d ∈ s.dependencies, d < s.step_index) :
    circularIssues plan = [] := by
  rw [circularIssues, List.flatMap_eq_nil_iff]
  intro s hs
  have hself : ¬(s.step_index ∈ s.dependencies) :=
    fun hc => lt_irrefl _ (hwf s hs _ hc)
  have hdfs := (check_circular_false plan.steps hwf
    (circularFuel plan.steps)).1 s.step_index [] [] (by simp)
  simp [hself, hdfs]

/-- C8 (amended): `validate_workflow_plan` the *function* behaves as the
claim says — it returns at least one issue whenever the plan has
non-contiguous indices, a self-dependency, a forward dependency, a
dependency on a nonexistent index, or a (possibly transitive) dependency
cycle, and a plan free of those defects draws no issue from those checks
(only the template-variable consistency check can still contribute).
However, the repository never rejects a plan before execution: the
planner's gate (`llm_planner.create_plan`, "Continue anyway") returns the
plan unchanged whatever the issues, and no caller invokes
`validate_workflow_plan`. -/
theorem validate_plan_amended (plan : ExecutionPlan) :
    ((¬(∀ i : Int, i ∈ plan.steps.map ExecutionStep.step_index ↔
        i ∈ rangeIndices plan.steps.length) ∨
      (∃ s ∈ plan.steps, s.step_index ∈ s.dependencies) ∨
      (∃ s ∈ plan.steps, ∃ d ∈ s.dependencies, s.step_index ≤ d) ∨
      (∃ s ∈ plan.steps, ∃ d ∈ s.dependencies,
        d ∉ plan.steps.map ExecutionStep.step_index) ∨
      HasCycle plan) → validate_workflow_plan plan ≠ []) ∧
    (plan.steps ≠ [] → PlanWellFormed plan →
      validate_workflow_plan plan = templateVariableIssues plan) ∧
    planner_validation_gate plan = plan := by
  refine ⟨?_, ?_, rfl⟩
  · intro hdef
    by_cases hemp : plan.steps.isEmpty
    · simp [validate_workflow_plan, hemp]
    · have hsplit : validate_workflow_plan plan = indexIssues plan ++
          depIssues plan ++ circularIssues plan ++
          templateVariableIssues plan := by
        simp [validate_workflow_plan, hemp]
      have hfuture : (∃ s ∈ plan.steps, ∃ d ∈ s.dependencies,
          s.step_index ≤ d) → depIssues plan ≠ [] := by
        intro ⟨s, hs, d, hd, hle⟩ hnil
        rw [depIssues, List.flatMap_eq_nil_iff] at hnil
        have := hnil s hs
        rw [List.flatMap_eq_nil_iff] at this
        have hdnil := this d hd
        simp [hle] at hdnil
      have hnonempty : indexIssues plan ≠ [] ∨ depIssues plan ≠ [] ∨
          circularIssues plan ≠ [] := by
        rcases hdef with h | h | h | h | h
        · left
          intro hnil
          rw [indexIssues] at hnil
          cases hset : setEqInt (rangeIndices plan.steps.length)
              (plan.steps.map ExecutionStep.step_index) with
          | true =>
              obtain ⟨h1, h2⟩ := (setEqInt_true_iff _ _).mp hset
              exact h (fun i => ⟨fun hi => h2 i hi, fun hi => h1 i hi⟩)
          | false => simp [hset] at hnil
        · right; right
          obtain ⟨s, hs, hself⟩ := h
          intro hnil
          rw [circularIssues, List.flatMap_eq_nil_iff] at hnil
          have := hnil s hs
          simp [hself] at this
        · exact Or.inr (Or.inl (hfuture h))
        · right; left
          obtain ⟨s, hs, d, hd, hnm⟩ := h
          intro hnil
          rw [depIssues, List.flatMap_eq_nil_iff] at hnil
          have := hnil s hs
          rw [List.flatMap_eq_nil_iff] at this
          have hdnil := this d hd
          simp [hnm] at hdnil
        · exact Or.inr (Or.inl (hfuture (hasCycle_future_dep plan h)))
      intro hnil
      rw [hsplit] at hnil
      simp only [List.append_eq_nil] at hnil
      rcases hnonempty with h | h | h
      · exact h hnil.1.1.1
      · exact h hnil.1.1.2
      · exact h hnil.1.2
  · intro hne hwf
    have hemp : plan.steps.isEmpty = false := by
      cases hsteps : plan.steps with
      | nil => exact absurd hsteps hne
      | cons a l => rfl
    have h1 := indexIssues_nil plan hwf.1
    have h2 := depIssues_nil plan hwf.2
    have h3 := circularIssues_nil plan
      (fun s hs d hd => (hwf.2 s hs d hd).2)
    simp [validate_workflow_plan, hemp, h1, h2, h3]

/-- C8 counterexample: the cyclic plan (step 2 depends on 3, step 3 on 2)
does draw issues from `validate_workflow_plan`, but nothing in the
repository rejects it before execution — the planner's validation gate
returns it unchanged, and the engine, started on it, executes step 1's
tool call and records its completed result. -/
theorem validate_not_invoked_counterexample :
    validate_workflow_plan c8Plan ≠ [] ∧
    planner_validation_gate c8Plan = c8Plan ∧
    (alGet (engine_run demoEnv 3 (.start, c8State0)).2.step_results 1).map
      StepResult.status = some "completed" := by
  refine ⟨by decide, rfl, rfl⟩

/-- Witness for the amended validation theorem: the cyclic plan draws an
issue, the well-formed demo plan draws none beyond the template check. -/
theorem validate_plan_amended_witness :
    validate_workflow_plan c8Plan ≠ [] ∧
    validate_workflow_plan demoPlan = templateVariableIssues demoPlan := by
  constructor
  · refine (validate_plan_amended c8Plan).1 (Or.inr (Or.inr (Or.inl ?_)))
    refine ⟨ExecutionStep.mk 2 .calendar .create_event "meet" [] [3] [],
      ?_, 3, ?_, by decide⟩
    · exact List.Mem.tail _ (List.Mem.head _)
    · exact List.Mem.head _
  · refine (validate_plan_amended demoPlan).2.1
      (List.cons_ne_nil _ _) ⟨?_, ?_⟩
    · intro i
      have hA : demoPlan.steps.map ExecutionStep.step_index =
          [1, 2] := rfl
      have hB : rangeIndices demoPlan.steps.length = [1, 2] := rfl
      rw [hA, hB]
    · intro s hs d hd
      rcases List.mem_cons.mp hs with rfl | hs2
      · have : demoStep1.dependencies = [] := rfl
        rw [this] at hd
        cases hd
      · rcases List.mem_cons.mp hs2 with rfl | hs3
        · have : demoStep2.dependencies = [1] := rfl
          rw [this] at hd
          rcases List.mem_cons.mp hd with rfl | hd2
          · exact ⟨by decide, by decide⟩
          · cases hd2
        · cases hs3
